import Mathlib

/-!
# Verification of the index-tracker cross-year continuity matching engine

Shallow embedding of the matching core of `src/api/app/api/v1/requirements.py`
(previous-year context: year-code resolution, section-mapping taxonomy
resolution, best-match selection) and `src/api/app/api/v1/recommendations.py`
(text normalization, similarity scoring, recommendation upload batch).

Python strings are modelled as `List Char` (a Python `str` is a sequence of
Unicode code points).  Python floats are modelled as `ℚ`: every quantity the
code compares (sequence-matcher ratios `2*M/T` with `T` bounded by realistic
text lengths, and the literal thresholds 0.9 / 0.7 / 0.6 and weights
0.4/0.6/0.3/0.35) is a rational whose distance from the thresholds is far
above double-precision rounding error, so `ℚ` comparisons agree with the
IEEE-double comparisons the interpreter performs.
-/

set_option maxRecDepth 20000

namespace IndexTracker

/-- A Python string: a sequence of Unicode code points. -/
abbrev Str := List Char

/-- One step of splitting on whitespace, consuming characters from the right:
a whitespace character opens a fresh (possibly empty) piece, any other
character is prepended to the current head piece. -/
def addChar (c : Char) (acc : List Str) : List Str :=
  if c.isWhitespace then [] :: acc
  else
    match acc with
    | [] => [[c]]
    | w :: ws => (c :: w) :: ws

/-- Python `str.split()` (no separator argument): split on runs of whitespace,
discarding empty pieces. -/
def pySplit (s : Str) : List Str :=
  (s.foldr addChar []).filter (fun w => w ≠ [])

/-- Python `" ".join(ws)`: the pieces joined by single spaces. -/
def pyJoin : List Str → Str
  | [] => []
  | [w] => w
  | w :: ws => w ++ ' ' :: pyJoin ws

/-- Python `str.strip()`: drop leading and trailing whitespace. -/
def pyStrip (s : Str) : Str :=
  ((s.dropWhile Char.isWhitespace).reverse.dropWhile Char.isWhitespace).reverse

/-- The Arabic stop words of `normalize_text`
(`recommendations.py` line 32). -/
def stopWords : List Str :=
  ["على".toList, "من".toList, "في".toList, "إلى".toList, "بين".toList,
   "مع".toList, "عن".toList, "الى".toList, "فى".toList]

/-- Python `str.replace(p, r)` for a one-character pattern and one-character
replacement: replace every occurrence. -/
def replaceChar (p r : Char) (w : Str) : Str :=
  w.map (fun c => if c = p then r else c)

/-- `if word.startswith("ال") and len(word) > 2: word = word[2:]`
(`recommendations.py` lines 42-43). -/
def stripArticle (w : Str) : Str :=
  if ("ال".toList).isPrefixOf w ∧ 2 < w.length then w.drop 2 else w

/-- `if word.startswith("و") and len(word) > 1: word = word[1:]`
(`recommendations.py` lines 45-46). -/
def stripConj (w : Str) : Str :=
  if ("و".toList).isPrefixOf w ∧ 1 < w.length then w.drop 1 else w

/-- The per-word transformation of `normalize_text`
(`recommendations.py` lines 41-51): strip a leading "ال" (when the word is
longer than 2), then a leading "و" (when longer than 1), then unify the alef
variants and the teh marbuta. -/
def normWord (w : Str) : Str :=
  replaceChar 'ة' 'ه' (replaceChar 'آ' 'ا' (replaceChar 'إ' 'ا'
    (replaceChar 'أ' 'ا' (stripConj (stripArticle w)))))

/-- `normalize_text` (`recommendations.py` lines 24-54): empty input maps to
the empty string; otherwise collapse whitespace, drop stop words, apply
`normWord` to each remaining word and rejoin with single spaces. -/
def normalize_text (text : Str) : Str :=
  if text = [] then []
  else
    let text := pyStrip (pyJoin (pySplit text))
    let words := pySplit text
    pyJoin ((words.filter (fun w => ¬ w ∈ stopWords)).map normWord)

/-! ## Sequence-matcher ratio (difflib semantics)

`SequenceMatcher(None, a, b).ratio()` for inputs below difflib's autojunk
threshold (`len(b) < 200`, which covers every string compared at a claim's
boundary): the total size `M` of the matching blocks found by repeatedly
taking the longest matching block (maximal length, then earliest start in
`a`, then earliest start in `b`) and recursing on the pieces to its left and
right; the ratio is `2*M/(len a + len b)`, and `1.0` when both inputs are
empty (difflib `_calculate_ratio`). -/

/-- Length of the longest common prefix of two strings. -/
def commonPrefixLen : Str → Str → Nat
  | c :: cs, d :: ds => if c = d then commonPrefixLen cs ds + 1 else 0
  | _, _ => 0

/-- difflib `find_longest_match` over whole strings: scan all start pairs
`(i, j)` in lexicographic order keeping the first strictly-longest match,
which yields the maximal length, then the earliest start in `a`, then the
earliest start in `b` — exactly difflib's documented tie-breaking. -/
def findLongestMatch (a b : Str) : Nat × Nat × Nat :=
  let pairs := (List.range a.length).flatMap
    (fun i => (List.range b.length).map (fun j => (i, j)))
  pairs.foldl
    (fun best p =>
      let k := commonPrefixLen (a.drop p.1) (b.drop p.2)
      if best.2.2 < k then (p.1, p.2, k) else best)
    (0, 0, 0)

/-- Total size of difflib's matching blocks: take the longest match, recurse
left and right.  Structural recursion on a fuel argument so that the function
evaluates by kernel reduction; each recursive call strictly shrinks the
`a`-side piece, so fuel `a.length + 1` always suffices. -/
def matchTotalF : Nat → Str → Str → Nat
  | 0, _, _ => 0
  | fuel + 1, a, b =>
    let m := findLongestMatch a b
    if m.2.2 = 0 then 0
    else
      matchTotalF fuel (a.take m.1) (b.take m.2.1) + m.2.2 +
        matchTotalF fuel (a.drop (m.1 + m.2.2)) (b.drop (m.2.1 + m.2.2))

/-- Total matching-block size `M` of `SequenceMatcher(None, a, b)`. -/
def matchTotal (a b : Str) : Nat :=
  matchTotalF (a.length + 1) a b

/-- `SequenceMatcher(None, a, b).ratio()`:
`2*M / (len a + len b)`, and `1` when both strings are empty. -/
def ratio (a b : Str) : ℚ :=
  if a.length + b.length = 0 then 1
  else (2 * matchTotal a b : ℚ) / ((a.length : ℚ) + (b.length : ℚ))

/-- `similarity_score` (`recommendations.py` lines 57-61): normalize both
texts with `normalize_text`, then sequence-matcher ratio. -/
def similarity_score (text1 text2 : Str) : ℚ :=
  ratio (normalize_text text1) (normalize_text text2)

/-- Python `str.lower()` restricted to the alphabets the repository compares
(ASCII letters and Arabic, on which `lower` is the identity). -/
def pyLower (s : Str) : Str := s.map Char.toLower

/-- `compute_text_similarity` (`requirements.py` lines 797-804): `0.0` when
either input is falsy, else the sequence-matcher ratio of the stripped,
lowercased texts — note: no `normalize_text`. -/
def compute_text_similarity (text1 text2 : Str) : ℚ :=
  if text1 = [] ∨ text2 = [] then 0
  else ratio (pyLower (pyStrip text1)) (pyLower (pyStrip text2))

/-! ## Data model

Rows are modelled as plain records; a database table is a `List` of rows and
SQLAlchemy's `.first()` is `List.find?` (the code issues no `order_by`, so
the list order stands for the store's row order).  A nullable text column is
`Option Str` where the code distinguishes SQL `NULL` (the `SectionMapping`
`== None` filters); `Requirement` text columns are `Str` with `[]` for
null/empty, which the code itself conflates (`or ""`, truthiness). -/

/-- A requirement row (the columns the matching core reads). -/
structure Requirement where
  id : Nat
  question_ar : Str := []
  main_area_ar : Str := []
  element_ar : Str := []
  sub_domain_ar : Str := []
  answer_ar : Str := []
  answer_status : Str := []
  code : Str := []
  deriving DecidableEq

/-- A section-mapping row: `from` = previous-index labels, `to` =
current-index labels, granularity distinguished by which `to` fields are
SQL `NULL`. -/
structure SectionMapping where
  current_index_id : Nat
  previous_index_id : Nat
  main_area_from_ar : Option Str := none
  element_from_ar : Option Str := none
  sub_domain_from_ar : Option Str := none
  main_area_to_ar : Option Str := none
  element_to_ar : Option Str := none
  sub_domain_to_ar : Option Str := none
  deriving DecidableEq

/-- A recommendation row (`id` abstracts the generated uuid). -/
structure Recommendation where
  id : Nat := 0
  requirement_id : Nat
  index_id : Nat
  current_status_ar : Str := []
  recommendation_ar : Str := []
  status : Str := []
  deriving DecidableEq

/-- An evidence row (only the columns the previous-year grouping reads). -/
structure Evidence where
  id : Nat
  requirement_id : Nat
  deriving DecidableEq

/-- Python truthiness of a nullable string column: `None` and `""` are
falsy. -/
def truthy : Option Str → Bool
  | none => false
  | some s => s ≠ []

/-! ## TaxonomyMapper (`requirements.py` lines 861-902) -/

/-- The sub-domain-level (full-triple) mapping lookup
(`requirements.py` lines 863-867). -/
def findFullTripleMapping (mappings : List SectionMapping) (cid pid : Nat)
    (sub : Str) : Option SectionMapping :=
  mappings.find? (fun m =>
    m.current_index_id = cid ∧ m.previous_index_id = pid ∧
    m.sub_domain_to_ar = some sub)

/-- The element-level mapping lookup (`requirements.py` lines 879-884):
`element_to` matches and `sub_domain_to` is NULL. -/
def findElementMapping (mappings : List SectionMapping) (cid pid : Nat)
    (el : Str) : Option SectionMapping :=
  mappings.find? (fun m =>
    m.current_index_id = cid ∧ m.previous_index_id = pid ∧
    m.element_to_ar = some el ∧ m.sub_domain_to_ar = none)

/-- The main-area-level mapping lookup (`requirements.py` lines 893-899):
`main_area_to` matches and both finer `to` fields are NULL. -/
def findMainAreaMapping (mappings : List SectionMapping) (cid pid : Nat)
    (main : Str) : Option SectionMapping :=
  mappings.find? (fun m =>
    m.current_index_id = cid ∧ m.previous_index_id = pid ∧
    m.main_area_to_ar = some main ∧ m.element_to_ar = none ∧
    m.sub_domain_to_ar = none)

/-- The full-triple pass of taxonomy resolution
(`requirements.py` lines 861-875): start from the current triple; when a
sub-domain-level mapping exists adopt its `sub_domain_from`, and its
`element_from` / `main_area_from` when truthy. -/
def resolveStep1 (mappings : List SectionMapping) (cid pid : Nat)
    (req : Requirement) : Option Str × Option Str × Option Str :=
  if req.sub_domain_ar ≠ [] then
    match findFullTripleMapping mappings cid pid req.sub_domain_ar with
    | some m =>
      (m.sub_domain_from_ar,
       if truthy m.element_from_ar then m.element_from_ar
       else some req.element_ar,
       if truthy m.main_area_from_ar then m.main_area_from_ar
       else some req.main_area_ar)
    | none => (some req.sub_domain_ar, some req.element_ar,
        some req.main_area_ar)
  else (some req.sub_domain_ar, some req.element_ar, some req.main_area_ar)

/-- The element-level pass (`requirements.py` lines 878-889), guarded by the
resolved sub-domain still equalling the current one. -/
def resolveStep2 (mappings : List SectionMapping) (cid pid : Nat)
    (req : Requirement) : Option Str × Option Str × Option Str :=
  if (resolveStep1 mappings cid pid req).1 = some req.sub_domain_ar ∧
      req.element_ar ≠ [] then
    match findElementMapping mappings cid pid req.element_ar with
    | some m =>
      ((resolveStep1 mappings cid pid req).1, m.element_from_ar,
       if truthy m.main_area_from_ar then m.main_area_from_ar
       else (resolveStep1 mappings cid pid req).2.2)
    | none => resolveStep1 mappings cid pid req
  else resolveStep1 mappings cid pid req

/-- Taxonomy resolution (`requirements.py` lines 851-902): the full-triple
pass, the element-level pass, then — guarded by the resolved main area still
equalling the current one — the main-area-level pass.  Returns
`(previous_sub_domain_ar, previous_element_ar, previous_main_area_ar)`. -/
def resolveTaxonomy (mappings : List SectionMapping) (cid pid : Nat)
    (req : Requirement) : Option Str × Option Str × Option Str :=
  if (resolveStep2 mappings cid pid req).2.2 = some req.main_area_ar ∧
      req.main_area_ar ≠ [] then
    match findMainAreaMapping mappings cid pid req.main_area_ar with
    | some m =>
      ((resolveStep2 mappings cid pid req).1,
       (resolveStep2 mappings cid pid req).2.1, m.main_area_from_ar)
    | none => resolveStep2 mappings cid pid req
  else resolveStep2 mappings cid pid req

/-! ## RequirementMatcher (`requirements.py` lines 935-949 and 1010-1079) -/

/-- One step of the best-match loop (`requirements.py` lines 940-944):
keep the candidate precisely when its similarity strictly beats the best so
far. -/
def bestStep (q : Str) (acc : Option Requirement × ℚ)
    (prev : Requirement) : Option Requirement × ℚ :=
  if acc.2 < compute_text_similarity q prev.question_ar then
    (some prev, compute_text_similarity q prev.question_ar)
  else acc

/-- The best-match loop (`requirements.py` lines 936-944): fold over the
pool keeping the strictly best `compute_text_similarity` score, starting
from `(None, 0.0)`. -/
def bestMatchFold (q : Str) (pool : List Requirement) :
    Option Requirement × ℚ :=
  pool.foldl (bestStep q) (none, 0)

/-- The ephemeral match result (spec section 3, `MatchResult`). -/
inductive PrevYearResult where
  | matched (req : Requirement) (confidence : ℚ)
  | unmatched (group : List Requirement)
  deriving DecidableEq

/-- The match decision (`requirements.py` lines 946-949 and the two response
branches): `Matched{best, best_similarity}` when
`best_similarity >= 0.9` and a best candidate exists
(`if is_matched and best_match:`), else `Unmatched{entire pool}`. -/
def previousYearMatch (q : Str) (pool : List Requirement) : PrevYearResult :=
  if (0.9 : ℚ) ≤ (bestMatchFold q pool).2 then
    match (bestMatchFold q pool).1 with
    | some r => .matched r ((bestMatchFold q pool).2)
    | none => .unmatched pool
  else .unmatched pool

/-- The maximum question-text similarity over a pool (the quantity the
claims reason about; the loop above computes it). -/
def poolMax (q : Str) (pool : List Requirement) : ℚ :=
  pool.foldl
    (fun m prev => max m (compute_text_similarity q prev.question_ar)) 0

/-- First recommendation row for a requirement in an index
(`db.query(Recommendation).filter(...).first()`). -/
def firstRecFor (recs : List Recommendation) (index_id req_id : Nat) :
    Option Recommendation :=
  recs.find? (fun r => r.requirement_id = req_id ∧ r.index_id = index_id)

/-- A member of the unmatched fallback group
(`StandardGroupRequirement`, evidence abstracted to its row ids). -/
structure GroupRequirement where
  code : Str
  question_ar : Str
  answer_ar : Str
  answer_status : Str
  evidence : List Nat
  deriving DecidableEq

/-- The unmatched response payload (`StandardGroupData`, the fields the
claim concerns). -/
structure StandardGroup where
  recommendation : Option Recommendation
  requirements : List GroupRequirement
  deriving DecidableEq

/-- The unmatched branch (`requirements.py` lines 1010-1069): one
recommendation looked up for the FIRST pool member only, and one group entry
per pool member carrying that member's own answer and evidence. -/
def buildUnmatchedGroup (recs : List Recommendation) (evs : List Evidence)
    (previous_index_id : Nat) (pool : List Requirement) : StandardGroup :=
  let group_recommendation :=
    match pool with
    | [] => none
    | first :: _ => firstRecFor recs previous_index_id first.id
  let group_requirements := pool.map (fun r =>
    { code := r.code, question_ar := r.question_ar, answer_ar := r.answer_ar,
      answer_status := r.answer_status,
      evidence := ((evs.filter (fun e => e.requirement_id = r.id)).map
        (fun e => e.id)) : GroupRequirement })
  { recommendation := group_recommendation,
    requirements := group_requirements }

/-- Modelled from the spec (4.5): the group recommendation is "taken from
the first pool member that has one" — scan the pool for the first member
owning a recommendation.  Comparator for the refinement claim C8; the code
above only consults `pool[0]`. -/
def specGroupRec (recs : List Recommendation) (previous_index_id : Nat)
    (pool : List Requirement) : Option Recommendation :=
  pool.findSome? (fun r => firstRecFor recs previous_index_id r.id)

/-! ## YearCodeResolver (`requirements.py` lines 780-795) -/

/-- Numeric value of a string of decimal digits. -/
def digitsVal (s : Str) : Nat :=
  s.foldl (fun n c => 10 * n + (c.toNat - '0'.toNat)) 0

/-- `extract_year_from_code` (`requirements.py` lines 780-789): a trailing
`-YYYY` group, else a leading `YYYY-` group, else `None`. -/
def extract_year (code : Str) : Option Nat :=
  if 5 ≤ code.length ∧ (code.drop (code.length - 5)).take 1 = ['-'] ∧
      (code.drop (code.length - 4)).all Char.isDigit then
    some (digitsVal (code.drop (code.length - 4)))
  else if 5 ≤ code.length ∧ (code.take 4).all Char.isDigit ∧
      (code.drop 4).take 1 = ['-'] then
    some (digitsVal (code.take 4))
  else none

/-- Python `re.sub(r'\d{4}', repl, s)`: replace every leftmost
non-overlapping run of 4 decimal digits by `repl`, scanning left to
right. -/
def reSub4Digits (repl : Str) : Str → Str
  | c :: c2 :: c3 :: c4 :: rest =>
    if c.isDigit ∧ c2.isDigit ∧ c3.isDigit ∧ c4.isDigit then
      repl ++ reSub4Digits repl rest
    else c :: reSub4Digits repl (c2 :: c3 :: c4 :: rest)
  | s => s

/-- Modelled from the spec (4.3): replace only the FIRST occurrence of a
4-digit run, preserving every other character.  Comparator for claim C9;
the code (`re.sub`) replaces every occurrence. -/
def reSubFirst (repl : Str) : Str → Str
  | c :: c2 :: c3 :: c4 :: rest =>
    if c.isDigit ∧ c2.isDigit ∧ c3.isDigit ∧ c4.isDigit then
      repl ++ rest
    else c :: reSubFirst repl (c2 :: c3 :: c4 :: rest)
  | s => s

/-- Number of leftmost non-overlapping 4-digit runs (the matches `re.sub`
replaces). -/
def count4Runs : Str → Nat
  | c :: c2 :: c3 :: c4 :: rest =>
    if c.isDigit ∧ c2.isDigit ∧ c3.isDigit ∧ c4.isDigit then
      count4Runs rest + 1
    else count4Runs (c2 :: c3 :: c4 :: rest)
  | _ => 0

/-- `find_previous_year_index` (`requirements.py` lines 791-795):
`re.sub(r'\d{4}', str(current_year - 1), current_code)`. -/
def find_previous_year_index (current_code : Str) (current_year : Nat) : Str :=
  reSub4Digits (Nat.repr (current_year - 1)).toList current_code

/-! ## RecommendationAssigner (`recommendations.py` lines 64-95, 147-270) -/

/-- A parsed sheet row (`recommendations.py` lines 153-159). -/
structure ExcelRow where
  main_area : Str := []
  element : Str := []
  sub_domain : Str := []
  current_status : Str := []
  recommendation : Str := []
  deriving DecidableEq

/-- The three per-field scores of the upload loop
(`recommendations.py` lines 178-180). -/
def rowScores (row : ExcelRow) (req : Requirement) : ℚ × ℚ × ℚ :=
  (similarity_score row.main_area req.main_area_ar,
   similarity_score row.element req.element_ar,
   similarity_score row.sub_domain req.sub_domain_ar)

/-- The match test of the upload loop (`recommendations.py` line 196): all
three field scores reach the 0.70 floor. -/
def rowMatchesReq (row : ExcelRow) (req : Requirement) : Bool :=
  let s := rowScores row req
  decide ((0.70 : ℚ) ≤ s.1 ∧ (0.70 : ℚ) ≤ s.2.1 ∧ (0.70 : ℚ) ≤ s.2.2)

/-- The combined score the upload loop computes
(`recommendations.py` line 182): the unweighted mean. -/
def uploadCombinedScore (row : ExcelRow) (req : Requirement) : ℚ :=
  let s := rowScores row req
  (s.1 + s.2.1 + s.2.2) / 3

/-- The requirements a row matches (`recommendations.py` lines 174-197: the
loop appends every requirement passing the three floors). -/
def matchingReqs (row : ExcelRow) (reqs : List Requirement) :
    List Requirement :=
  reqs.filter (rowMatchesReq row)

/-- The data-dependent weighted combination of `find_matching_requirement`
(`recommendations.py` lines 83-89): `0.4*main + 0.6*sub` when the
requirement's element is empty/blank, else
`0.3*main + 0.35*element + 0.35*sub`. -/
def weightedCombinedScore (req : Requirement) (m e s : ℚ) : ℚ :=
  if pyStrip req.element_ar = [] then m * 0.4 + s * 0.6
  else m * 0.3 + e * 0.35 + s * 0.35

/-- `find_matching_requirement` (`recommendations.py` lines 64-95): best
weighted-combined score over a 0.6 threshold — the helper the upload flow
does not call. -/
def find_matching_requirement (excel_row : ExcelRow)
    (requirements : List Requirement) (threshold : ℚ := 0.6) :
    Option Requirement :=
  (requirements.foldl
    (fun acc req =>
      let s := rowScores excel_row req
      let combined := weightedCombinedScore req s.1 s.2.1 s.2.2
      if acc.2 < combined ∧ threshold ≤ combined then (some req, combined)
      else acc)
    ((none : Option Requirement), (0 : ℚ))).1

/-- Mutable state of the upload batch (`recommendations.py` lines 161-166):
the recommendation table, the batch-global processed set and the two
counters.  `log` is a ghost observation recording each write
`(requirement_id, row)` in order; it mirrors no source variable and no
definition branches on it. -/
structure RecState where
  recs : List Recommendation
  processed : List Nat
  created : Nat
  updated : Nat
  log : List (Nat × ExcelRow) := []
  deriving DecidableEq

/-- Update the first recommendation row matching
`(requirement_id, index_id)` in place (`recommendations.py` lines 212-217). -/
def updateFirstRec (index_id req_id : Nat) (row : ExcelRow) :
    List Recommendation → List Recommendation
  | [] => []
  | r :: rs =>
    if r.requirement_id = req_id ∧ r.index_id = index_id then
      { r with current_status_ar := row.current_status,
               recommendation_ar := row.recommendation } :: rs
    else r :: updateFirstRec index_id req_id row rs

/-- Processing one matched requirement (`recommendations.py` lines
201-234): skip when already processed in this batch, else update the
existing row for `(requirement_id, index_id)` or insert a fresh one, and
mark the requirement processed. -/
def upsertRec (index_id : Nat) (row : ExcelRow) (req_id : Nat)
    (st : RecState) : RecState :=
  if req_id ∈ st.processed then st
  else
    match firstRecFor st.recs index_id req_id with
    | some _ =>
      { st with recs := updateFirstRec index_id req_id row st.recs,
                updated := st.updated + 1,
                processed := req_id :: st.processed,
                log := st.log ++ [(req_id, row)] }
    | none =>
      { st with recs := st.recs ++
          [{ requirement_id := req_id, index_id := index_id,
             current_status_ar := row.current_status,
             recommendation_ar := row.recommendation,
             status := "pending".toList }],
                created := st.created + 1,
                processed := req_id :: st.processed,
                log := st.log ++ [(req_id, row)] }

/-- Processing one sheet row (`recommendations.py` lines 168-234): rows with
empty recommendation text are skipped, otherwise every matching requirement
is upserted in order. -/
def applyRow (index_id : Nat) (reqs : List Requirement) (st : RecState)
    (row : ExcelRow) : RecState :=
  if row.recommendation = [] then st
  else (matchingReqs row reqs).foldl
    (fun s req => upsertRec index_id row req.id s) st

/-- The whole upload batch over the parsed rows. -/
def upload (index_id : Nat) (reqs : List Requirement)
    (rows : List ExcelRow) (st : RecState) : RecState :=
  rows.foldl (applyRow index_id reqs) st

/-- The initial state of a batch over a given recommendation table. -/
def initState (recs : List Recommendation) : RecState :=
  { recs := recs, processed := [], created := 0, updated := 0, log := [] }

/-- The sequence of `(requirement_id, row)` upsert events a batch performs,
in order. -/
def uploadEvents (reqs : List Requirement) (rows : List ExcelRow) :
    List (Nat × ExcelRow) :=
  rows.flatMap (fun row =>
    if row.recommendation = [] then []
    else (matchingReqs row reqs).map (fun req => (req.id, row)))

/-- One upsert event applied to the state. -/
def stepEvent (index_id : Nat) (st : RecState) (e : Nat × ExcelRow) :
    RecState :=
  upsertRec index_id e.2 e.1 st

/-- The `(requirement_id, index_id)` keys of a recommendation table. -/
def pairKeys (recs : List Recommendation) : List (Nat × Nat) :=
  recs.map (fun r => (r.requirement_id, r.index_id))

/-- Whether the table has a row for `(req_id, index_id)` — the
`if existing_rec:` test of the code. -/
def hasKey (recs : List Recommendation) (index_id req_id : Nat) : Bool :=
  (firstRecFor recs index_id req_id).isSome

/-- The stored text fields for a key (via the first matching row). -/
def contentFor (recs : List Recommendation) (index_id req_id : Nat) :
    Option (Str × Str) :=
  (firstRecFor recs index_id req_id).map
    (fun r => (r.current_status_ar, r.recommendation_ar))

/-- The first event of the batch targeting a given requirement id. -/
def firstEventFor (req_id : Nat) (events : List (Nat × ExcelRow)) :
    Option (Nat × ExcelRow) :=
  events.find? (fun e => e.1 = req_id)

/-- The ids an event sequence writes: first occurrences not yet processed. -/
def freshEvents (processed : List Nat) :
    List (Nat × ExcelRow) → List (Nat × ExcelRow)
  | [] => []
  | e :: es =>
    if e.1 ∈ processed then freshEvents processed es
    else e :: freshEvents (e.1 :: processed) es

/-- A string containing no whitespace character. -/
def WsFree (w : Str) : Prop := ∀ c ∈ w, c.isWhitespace = false

/-- A word left unchanged by a further `normalize_text` pass: not a stop
word, no strippable "ال" prefix, no strippable "و" prefix. -/
def stableWord (w : Str) : Prop :=
  ¬ w ∈ stopWords ∧ ¬ (("ال".toList).isPrefixOf w ∧ 2 < w.length) ∧
    ¬ (("و".toList).isPrefixOf w ∧ 1 < w.length)

instance (w : Str) : Decidable (WsFree w) := by
  unfold WsFree; infer_instance

instance (w : Str) : Decidable (stableWord w) := by
  unfold stableWord; infer_instance

/-! ## Concrete instances used by witnesses and counterexamples -/

/-- A previous-year candidate whose question scores exactly 0.9 against
"abcdefghij" (matching-block total 9 over lengths 10+10). -/
def wCand : Requirement := { id := 7, question_ar := "abcdefghix".toList }

/-- C3 data: a current requirement carrying the full triple (s, e, m). -/
def wReq3 : Requirement :=
  { id := 1, sub_domain_ar := "s".toList, element_ar := "e".toList,
    main_area_ar := "m".toList }

/-- C3 counterexample: a full-triple row whose `sub_domain_from` equals the
current sub-domain and whose `element_from` is present. -/
def wMapFull : SectionMapping :=
  { current_index_id := 1, previous_index_id := 2,
    sub_domain_to_ar := some "s".toList, element_to_ar := some "e".toList,
    main_area_to_ar := some "m".toList,
    sub_domain_from_ar := some "s".toList,
    element_from_ar := some "x".toList,
    main_area_from_ar := some "mm".toList }

/-- C3 counterexample: an element-level row for the same requirement. -/
def wMapElement : SectionMapping :=
  { current_index_id := 1, previous_index_id := 2,
    element_to_ar := some "e".toList, sub_domain_to_ar := none,
    element_from_ar := some "y".toList }

/-- C3 counterexample: a main-area-level row for the same requirement. -/
def wMapMain : SectionMapping :=
  { current_index_id := 1, previous_index_id := 2,
    main_area_to_ar := some "m".toList, element_to_ar := none,
    sub_domain_to_ar := none, main_area_from_ar := some "z".toList }

/-- C3 amended-witness: a full-triple row whose `sub_domain_from` and
`main_area_from` genuinely differ from the current labels. -/
def wMapFull2 : SectionMapping :=
  { current_index_id := 1, previous_index_id := 2,
    sub_domain_to_ar := some "s".toList, element_to_ar := some "e".toList,
    main_area_to_ar := some "m".toList,
    sub_domain_from_ar := some "t".toList,
    element_from_ar := some "x".toList,
    main_area_from_ar := some "n".toList }

/-- C4 counterexample row: main area and sub-domain filled, element blank. -/
def wRow4 : ExcelRow :=
  { main_area := "aa".toList, sub_domain := "bb".toList,
    recommendation := "r".toList }

/-- C4 counterexample requirement: identical main area, blank element,
different sub-domain — per-field scores (1, 1, 0). -/
def wReq4 : Requirement :=
  { id := 3, main_area_ar := "aa".toList, element_ar := [],
    sub_domain_ar := "cc".toList }

/-- C5/C10 witness requirement. -/
def wReqU : Requirement :=
  { id := 11, main_area_ar := "aa".toList, element_ar := "bb".toList,
    sub_domain_ar := "cc".toList }

/-- C5/C10 witness sheet row matching `wReqU` exactly. -/
def wRowU : ExcelRow :=
  { main_area := "aa".toList, element := "bb".toList,
    sub_domain := "cc".toList, current_status := "st".toList,
    recommendation := "rec".toList }

/-- C8 counterexample pool members. -/
def wPool1 : Requirement := { id := 21, code := "R1".toList }

def wPool2 : Requirement := { id := 22, code := "R2".toList }

/-- C8 counterexample: a recommendation owned by the SECOND pool member. -/
def wRec8 : Recommendation :=
  { id := 9, requirement_id := 22, index_id := 4,
    recommendation_ar := "rr".toList }

/-! ## Lemmas: whitespace splitting and joining -/

theorem addChar_wsfree (c : Char) (acc : List Str)
    (h : ∀ w ∈ acc, WsFree w) : ∀ w ∈ addChar c acc, WsFree w := by
  cases acc with
  | nil =>
    intro w hw
    unfold addChar at hw
    by_cases hc : c.isWhitespace
    · rw [if_pos hc] at hw
      rcases List.mem_cons.mp hw with hw | hw
      · subst hw; intro x hx; simp at hx
      · simp at hw
    · rw [if_neg hc] at hw
      rcases List.mem_cons.mp hw with hw | hw
      · subst hw
        intro x hx
        have : x = c := by simpa using hx
        subst this
        simpa using hc
      · simp at hw
  | cons w0 ws0 =>
    intro w hw
    unfold addChar at hw
    by_cases hc : c.isWhitespace
    · rw [if_pos hc] at hw
      rcases List.mem_cons.mp hw with hw | hw
      · subst hw; intro x hx; simp at hx
      · exact h w hw
    · rw [if_neg hc] at hw
      rcases List.mem_cons.mp hw with hw | hw
      · subst hw
        intro x hx
        rcases List.mem_cons.mp hx with hx | hx
        · subst hx; simpa using hc
        · exact h w0 (List.mem_cons_self w0 ws0) x hx
      · exact h w (List.mem_cons_of_mem w0 hw)

theorem foldr_addChar_wsfree (s : Str) (acc : List Str)
    (h : ∀ w ∈ acc, WsFree w) : ∀ w ∈ s.foldr addChar acc, WsFree w := by
  induction s with
  | nil => exact h
  | cons c s ih =>
    intro w hw
    simp only [List.foldr_cons] at hw
    exact addChar_wsfree c _ ih w hw

theorem pySplit_wsfree (s : Str) : ∀ w ∈ pySplit s, WsFree w := by
  intro w hw
  exact foldr_addChar_wsfree s [] (by intro w hw; cases hw)
    w (List.mem_of_mem_filter hw)

theorem pySplit_ne_nil (s : Str) : ∀ w ∈ pySplit s, w ≠ [] := by
  intro w hw
  have := List.of_mem_filter hw
  simpa using this

theorem foldr_addChar_cons (w : Str) (hw : WsFree w) (h : Str)
    (t : List Str) : w.foldr addChar (h :: t) = (w ++ h) :: t := by
  induction w with
  | nil => rfl
  | cons c w ih =>
    have hc : c.isWhitespace = false := hw c (List.mem_cons_self c w)
    have hw' : WsFree w := fun x hx => hw x (List.mem_cons_of_mem c hx)
    simp only [List.foldr_cons, ih hw']
    unfold addChar
    rw [if_neg (by simp [hc])]
    rfl

theorem foldr_addChar_singleton (w : Str) (hne : w ≠ []) (hw : WsFree w) :
    w.foldr addChar [] = [w] := by
  cases w with
  | nil => exact absurd rfl hne
  | cons c w =>
    have hc : c.isWhitespace = false := hw c (List.mem_cons_self c w)
    have hw' : WsFree w := fun x hx => hw x (List.mem_cons_of_mem c hx)
    cases w with
    | nil =>
      simp only [List.foldr_cons, List.foldr_nil]
      unfold addChar
      rw [if_neg (by simp [hc])]
    | cons d w' =>
      have ih := foldr_addChar_singleton (d :: w') (by simp) hw'
      simp only [List.foldr_cons] at ih ⊢
      rw [ih]
      unfold addChar
      rw [if_neg (by simp [hc])]

theorem pySplit_pyJoin (ws : List Str) (h1 : ∀ w ∈ ws, w ≠ [])
    (h2 : ∀ w ∈ ws, WsFree w) : pySplit (pyJoin ws) = ws := by
  induction ws with
  | nil => rfl
  | cons w rest ih =>
    have hwne : w ≠ [] := h1 w (List.mem_cons_self w rest)
    have hwfree : WsFree w := h2 w (List.mem_cons_self w rest)
    cases rest with
    | nil =>
      show pySplit w = [w]
      unfold pySplit
      rw [foldr_addChar_singleton w hwne hwfree]
      simp [hwne]
    | cons r rest' =>
      have hrest1 : ∀ v ∈ r :: rest', v ≠ [] :=
        fun v hv => h1 v (List.mem_cons_of_mem w hv)
      have hrest2 : ∀ v ∈ r :: rest', WsFree v :=
        fun v hv => h2 v (List.mem_cons_of_mem w hv)
      have hj : pyJoin (w :: r :: rest') = w ++ ' ' :: pyJoin (r :: rest') :=
        rfl
      unfold pySplit
      rw [hj, List.foldr_append]
      have hsp : (' ' :: pyJoin (r :: rest')).foldr addChar [] =
          [] :: (pyJoin (r :: rest')).foldr addChar [] := by
        simp only [List.foldr_cons]
        unfold addChar
        rw [if_pos (by decide)]
      rw [hsp, foldr_addChar_cons w hwfree, List.append_nil]
      have := ih hrest1 hrest2
      unfold pySplit at this
      simp only [List.filter_cons]
      rw [if_pos (by simpa using hwne)]
      rw [this]

theorem pyJoin_dropWhile (ws : List Str) (h1 : ∀ w ∈ ws, w ≠ [])
    (h2 : ∀ w ∈ ws, WsFree w) :
    (pyJoin ws).dropWhile Char.isWhitespace = pyJoin ws := by
  cases ws with
  | nil => rfl
  | cons w rest =>
    have hwne : w ≠ [] := h1 w (List.mem_cons_self w rest)
    have hwfree : WsFree w := h2 w (List.mem_cons_self w rest)
    cases w with
    | nil => exact absurd rfl hwne
    | cons c w' =>
      have hc : c.isWhitespace = false :=
        hwfree c (List.mem_cons_self c w')
      cases rest with
      | nil =>
        show (c :: w').dropWhile Char.isWhitespace = c :: w'
        rw [List.dropWhile_cons, if_neg (by simp [hc])]
      | cons r rest' =>
        show ((c :: w') ++ ' ' :: pyJoin (r :: rest')).dropWhile
            Char.isWhitespace = (c :: w') ++ ' ' :: pyJoin (r :: rest')
        rw [List.cons_append, List.dropWhile_cons, if_neg (by simp [hc])]

theorem pyJoin_concat (ws : List Str) (w : Str) :
    pyJoin (ws ++ [w]) = if ws = [] then w else pyJoin ws ++ ' ' :: w := by
  induction ws with
  | nil => rfl
  | cons v rest ih =>
    cases rest with
    | nil => rfl
    | cons r rest' =>
      have h1 : pyJoin ((v :: r :: rest') ++ [w]) =
          v ++ ' ' :: pyJoin ((r :: rest') ++ [w]) := rfl
      rw [h1, ih]
      rw [if_neg (by simp), if_neg (by simp)]
      show v ++ ' ' :: (pyJoin (r :: rest') ++ ' ' :: w) =
        (v ++ ' ' :: pyJoin (r :: rest')) ++ ' ' :: w
      simp

theorem pyJoin_reverse_dropWhile (ws : List Str) (h1 : ∀ w ∈ ws, w ≠ [])
    (h2 : ∀ w ∈ ws, WsFree w) :
    (pyJoin ws).reverse.dropWhile Char.isWhitespace = (pyJoin ws).reverse := by
  rcases List.eq_nil_or_concat ws with hnil | ⟨L, w, hcat⟩
  · subst hnil; rfl
  · subst hcat
    have hwmem : w ∈ L.concat w := by simp [List.concat_eq_append]
    have hwne : w ≠ [] := h1 w hwmem
    have hwfree : WsFree w := h2 w hwmem
    cases hrw : w.reverse with
    | nil => exact absurd (by simpa using hrw) hwne
    | cons c t =>
      have hc : c.isWhitespace = false := by
        apply hwfree
        have hcm : c ∈ w.reverse := by
          rw [hrw]; exact List.mem_cons_self c t
        simpa using hcm
      rw [List.concat_eq_append, pyJoin_concat]
      by_cases hL : L = []
      · rw [if_pos hL, hrw, List.dropWhile_cons, if_neg (by simp [hc])]
      · rw [if_neg hL, List.reverse_append, List.reverse_cons,
          List.append_assoc, hrw, List.cons_append, List.dropWhile_cons,
          if_neg (by simp [hc])]

theorem pyStrip_pyJoin (ws : List Str) (h1 : ∀ w ∈ ws, w ≠ [])
    (h2 : ∀ w ∈ ws, WsFree w) : pyStrip (pyJoin ws) = pyJoin ws := by
  unfold pyStrip
  rw [pyJoin_dropWhile ws h1 h2, pyJoin_reverse_dropWhile ws h1 h2,
    List.reverse_reverse]

/-! ## Lemmas: the normalized form -/

theorem normalize_text_eq (s : Str) :
    normalize_text s =
      pyJoin (((pySplit s).filter (fun w => ¬ w ∈ stopWords)).map normWord) := by
  by_cases hs : s = []
  · subst hs; rfl
  · unfold normalize_text
    rw [if_neg hs]
    show pyJoin (((pySplit (pyStrip (pyJoin (pySplit s)))).filter
      (fun w => ¬ w ∈ stopWords)).map normWord) = _
    rw [pyStrip_pyJoin (pySplit s) (pySplit_ne_nil s) (pySplit_wsfree s)]
    rw [pySplit_pyJoin (pySplit s) (pySplit_ne_nil s) (pySplit_wsfree s)]

theorem replaceChar_wsfree (p r : Char) (x : Str) (hx : WsFree x)
    (hr : r.isWhitespace = false) : WsFree (replaceChar p r x) := by
  intro c hc
  rcases List.mem_map.mp hc with ⟨d, hd, hcd⟩
  by_cases hdp : d = p
  · rw [← hcd, if_pos hdp]; exact hr
  · rw [← hcd, if_neg hdp]; exact hx d hd

theorem stripArticle_length_pos (w : Str) (h : 0 < w.length) :
    0 < (stripArticle w).length := by
  unfold stripArticle
  split
  next hcond => simp only [List.length_drop]; omega
  next => exact h

theorem stripConj_length_pos (w : Str) (h : 0 < w.length) :
    0 < (stripConj w).length := by
  unfold stripConj
  split
  next hcond => simp only [List.length_drop]; omega
  next => exact h

theorem normWord_ne_nil (w : Str) (h : w ≠ []) : normWord w ≠ [] := by
  have h1 : 0 < (stripConj (stripArticle w)).length :=
    stripConj_length_pos _ (stripArticle_length_pos w (List.length_pos.mpr h))
  intro hcon
  have hlen : (normWord w).length = 0 := by rw [hcon]; rfl
  unfold normWord replaceChar at hlen
  simp only [List.length_map] at hlen
  omega

theorem stripArticle_wsfree (w : Str) (h : WsFree w) :
    WsFree (stripArticle w) := by
  unfold stripArticle
  split
  next => exact fun c hc => h c (List.drop_subset _ _ hc)
  next => exact h

theorem stripConj_wsfree (w : Str) (h : WsFree w) : WsFree (stripConj w) := by
  unfold stripConj
  split
  next => exact fun c hc => h c (List.drop_subset _ _ hc)
  next => exact h

theorem normWord_wsfree (w : Str) (h : WsFree w) : WsFree (normWord w) := by
  unfold normWord
  exact replaceChar_wsfree _ _ _
    (replaceChar_wsfree _ _ _
      (replaceChar_wsfree _ _ _
        (replaceChar_wsfree _ _ _
          (stripConj_wsfree _ (stripArticle_wsfree _ h)) (by decide))
        (by decide))
      (by decide))
    (by decide)

theorem not_mem_replaceChar_self (p r : Char) (x : Str) (hpr : p ≠ r) :
    p ∉ replaceChar p r x := by
  intro hmem
  rcases List.mem_map.mp hmem with ⟨d, _, hd⟩
  by_cases hdp : d = p
  · rw [if_pos hdp] at hd; exact hpr hd.symm
  · rw [if_neg hdp] at hd; exact hdp hd

theorem not_mem_replaceChar_of (p r q : Char) (x : Str) (hq : q ∉ x)
    (hqr : q ≠ r) : q ∉ replaceChar p r x := by
  intro hmem
  rcases List.mem_map.mp hmem with ⟨d, hdx, hd⟩
  by_cases hdp : d = p
  · rw [if_pos hdp] at hd; exact hqr hd.symm
  · rw [if_neg hdp] at hd; exact hq (hd ▸ hdx)

theorem normWord_pattern_free (w : Str) :
    'أ' ∉ normWord w ∧ 'إ' ∉ normWord w ∧ 'آ' ∉ normWord w ∧
      'ة' ∉ normWord w := by
  unfold normWord
  refine ⟨?_, ?_, ?_, ?_⟩
  · apply not_mem_replaceChar_of _ _ _ _ _ (by decide)
    apply not_mem_replaceChar_of _ _ _ _ _ (by decide)
    apply not_mem_replaceChar_of _ _ _ _ _ (by decide)
    exact not_mem_replaceChar_self _ _ _ (by decide)
  · apply not_mem_replaceChar_of _ _ _ _ _ (by decide)
    apply not_mem_replaceChar_of _ _ _ _ _ (by decide)
    exact not_mem_replaceChar_self _ _ _ (by decide)
  · apply not_mem_replaceChar_of _ _ _ _ _ (by decide)
    exact not_mem_replaceChar_self _ _ _ (by decide)
  · exact not_mem_replaceChar_self _ _ _ (by decide)

theorem replaceChar_eq_self (p r : Char) (x : Str) (h : p ∉ x) :
    replaceChar p r x = x := by
  unfold replaceChar
  rw [List.map_congr_left (fun c hc =>
    if_neg (fun hcp : c = p => h (hcp ▸ hc)))]
  exact List.map_id x

theorem normWord_stable (w : Str)
    (h2 : ¬ (("ال".toList).isPrefixOf w ∧ 2 < w.length))
    (h3 : ¬ (("و".toList).isPrefixOf w ∧ 1 < w.length))
    (hp1 : 'أ' ∉ w) (hp2 : 'إ' ∉ w) (hp3 : 'آ' ∉ w) (hp4 : 'ة' ∉ w) :
    normWord w = w := by
  have e1 : stripArticle w = w := by
    unfold stripArticle; rw [if_neg h2]
  have e2 : stripConj w = w := by
    unfold stripConj; rw [if_neg h3]
  unfold normWord
  rw [e1, e2, replaceChar_eq_self _ _ _ hp1, replaceChar_eq_self _ _ _ hp2,
    replaceChar_eq_self _ _ _ hp3, replaceChar_eq_self _ _ _ hp4]

theorem pySplit_normalize (s : Str) :
    pySplit (normalize_text s) =
      ((pySplit s).filter (fun w => ¬ w ∈ stopWords)).map normWord := by
  rw [normalize_text_eq]
  apply pySplit_pyJoin
  · intro w hw
    rcases List.mem_map.mp hw with ⟨v, hv, hvw⟩
    have hvne : v ≠ [] := pySplit_ne_nil s v (List.mem_of_mem_filter hv)
    exact hvw ▸ normWord_ne_nil v hvne
  · intro w hw
    rcases List.mem_map.mp hw with ⟨v, hv, hvw⟩
    have hvfree : WsFree v := pySplit_wsfree s v (List.mem_of_mem_filter hv)
    exact hvw ▸ normWord_wsfree v hvfree

/-! ## Claim C6 — normalization idempotence -/

/-- Claim C6, counterexample: normalization is NOT idempotent.  The word
"ووب" loses one "و" prefix per pass: `normalize` sends it to "وب", and a
second pass sends that to "ب". -/
theorem claim_C6_counterexample :
    normalize_text (normalize_text ("ووب".toList)) ≠
      normalize_text ("ووب".toList) := by decide

/-- Claim C6, amended: a `normalize_text` pass strips at most one prefix
layer per word, so idempotence holds exactly on inputs whose once-normalized
words are stable — not a stop word, no remaining strippable "ال"/"و" prefix.
On such inputs `normalize_text (normalize_text s) = normalize_text s`. -/
theorem claim_C6_amended (s : Str)
    (h : ∀ w ∈ pySplit (normalize_text s), stableWord w) :
    normalize_text (normalize_text s) = normalize_text s := by
  have hsplit := pySplit_normalize s
  rw [normalize_text_eq (normalize_text s)]
  have hfilter : (pySplit (normalize_text s)).filter
      (fun w => ¬ w ∈ stopWords) = pySplit (normalize_text s) :=
    List.filter_eq_self.mpr (fun w hwmem => by
      simpa using (h w hwmem).1)
  rw [hfilter]
  have hmap : (pySplit (normalize_text s)).map normWord =
      pySplit (normalize_text s) := by
    have : ∀ w ∈ pySplit (normalize_text s), normWord w = w := by
      intro w hw
      have hst := h w hw
      have hpat : 'أ' ∉ w ∧ 'إ' ∉ w ∧ 'آ' ∉ w ∧ 'ة' ∉ w := by
        rw [hsplit] at hw
        rcases List.mem_map.mp hw with ⟨v, _, hvw⟩
        exact hvw ▸ normWord_pattern_free v
      exact normWord_stable w hst.2.1 hst.2.2 hpat.1 hpat.2.1 hpat.2.2.1
        hpat.2.2.2
    rw [List.map_congr_left this]
    exact List.map_id _
  rw [hmap, hsplit, ← normalize_text_eq]

/-- Witness for the amended C6 at the concrete input "نص". -/
theorem claim_C6_amended_witness :
    (∀ w ∈ pySplit (normalize_text ("نص".toList)), stableWord w) ∧
      normalize_text (normalize_text ("نص".toList)) =
        normalize_text ("نص".toList) :=
  ⟨by decide, claim_C6_amended ("نص".toList) (by decide)⟩

/-! ## Lemmas: the sequence-matcher ratio on empty inputs -/

theorem findLongestMatch_nil_left (b : Str) :
    findLongestMatch [] b = (0, 0, 0) := by
  unfold findLongestMatch
  simp

theorem flatMap_nil_fun {α β : Type} (l : List α) :
    (l.flatMap fun _ => ([] : List β)) = [] := by
  induction l with
  | nil => rfl
  | cons x l ih => simp [ih]

theorem findLongestMatch_nil_right (a : Str) :
    findLongestMatch a [] = (0, 0, 0) := by
  unfold findLongestMatch
  simp [flatMap_nil_fun]

theorem matchTotalF_nil_left (fuel : Nat) (b : Str) :
    matchTotalF fuel [] b = 0 := by
  cases fuel with
  | zero => rfl
  | succ n => simp [matchTotalF, findLongestMatch_nil_left]

theorem matchTotalF_nil_right (fuel : Nat) (a : Str) :
    matchTotalF fuel a [] = 0 := by
  cases fuel with
  | zero => rfl
  | succ n => simp [matchTotalF, findLongestMatch_nil_right]

theorem ratio_nil_left (b : Str) (hb : b ≠ []) : ratio [] b = 0 := by
  unfold ratio
  rw [if_neg (by simp [List.length_eq_zero, hb])]
  unfold matchTotal
  rw [matchTotalF_nil_left]
  simp

theorem ratio_nil_right (a : Str) (ha : a ≠ []) : ratio a [] = 0 := by
  unfold ratio
  rw [if_neg (by simp [List.length_eq_zero, ha])]
  unfold matchTotal
  rw [matchTotalF_nil_right]
  simp

/-! ## Claim C7 — similarity on empty inputs -/

/-- Claim C7, counterexample: when BOTH inputs normalize to empty the score
is `1.0`, not `0.0` — difflib's `ratio()` of two empty sequences is `1.0`
and `similarity_score` has no empty guard. -/
theorem claim_C7_counterexample :
    similarity_score [] [] = 1 ∧ ¬ similarity_score [] [] = 0 := by
  constructor
  · decide
  · decide

/-- Claim C7, amended: `similarity_score` returns `0.0` when exactly one
normalized input is empty, and `1.0` when both are. -/
theorem claim_C7_amended (a b : Str)
    (h : normalize_text a = [] ∨ normalize_text b = []) :
    similarity_score a b =
      if normalize_text a = [] ∧ normalize_text b = [] then 1 else 0 := by
  unfold similarity_score
  rcases h with ha | hb
  · rw [ha]
    by_cases hb : normalize_text b = []
    · rw [hb, if_pos ⟨rfl, rfl⟩]
      decide
    · rw [if_neg (fun hcon => hb hcon.2)]
      exact ratio_nil_left _ hb
  · rw [hb]
    by_cases ha : normalize_text a = []
    · rw [ha, if_pos ⟨rfl, rfl⟩]
      decide
    · rw [if_neg (fun hcon => ha hcon.1)]
      exact ratio_nil_right _ ha

/-- Witness for the amended C7: "في" is a stop word, so it normalizes to
empty against the non-empty "x". -/
theorem claim_C7_amended_witness :
    similarity_score ("في".toList) ("x".toList) =
      if normalize_text ("في".toList) = [] ∧ normalize_text ("x".toList) = []
      then 1 else 0 :=
  claim_C7_amended ("في".toList) ("x".toList) (Or.inl (by decide))

/-! ## Claim C1 — the matcher scorer vs the normalize-then-ratio scorer -/

/-- Claim C1, counterexample: the two scorers differ.  The matcher scorer
lowercases (`"A"` vs `"a"` score 1.0) while the recommendation scorer's
normalization does not (score 0.0). -/
theorem claim_C1_counterexample :
    compute_text_similarity ("A".toList) ("a".toList) = 1 ∧
    similarity_score ("A".toList) ("a".toList) = 0 ∧
    compute_text_similarity ("A".toList) ("a".toList) ≠
      similarity_score ("A".toList) ("a".toList) := by
  refine ⟨?_, ?_, ?_⟩
  · with_unfolding_all decide
  · with_unfolding_all decide
  · with_unfolding_all decide

/-- Claim C1, amended: `compute_text_similarity` applies only
strip-and-lowercase, not the 4.1 normalization; the two scorers coincide
exactly on non-falsy inputs on which the two preprocessing pipelines agree. -/
theorem claim_C1_amended (a b : Str) (ha : a ≠ []) (hb : b ≠ [])
    (hna : pyLower (pyStrip a) = normalize_text a)
    (hnb : pyLower (pyStrip b) = normalize_text b) :
    compute_text_similarity a b = similarity_score a b := by
  unfold compute_text_similarity similarity_score
  rw [if_neg (not_or.mpr ⟨ha, hb⟩), hna, hnb]

/-- Witness for the amended C1 at "abc" / "abd". -/
theorem claim_C1_amended_witness :
    compute_text_similarity ("abc".toList) ("abd".toList) =
      similarity_score ("abc".toList) ("abd".toList) :=
  claim_C1_amended ("abc".toList) ("abd".toList) (by decide) (by decide)
    (by decide) (by decide)

/-! ## Lemmas: the best-match fold -/

theorem bestMatchFold_snd_go (q : Str) (l : List Requirement) :
    ∀ acc : Option Requirement × ℚ,
      (l.foldl (bestStep q) acc).2 =
      l.foldl
        (fun m prev => max m (compute_text_similarity q prev.question_ar))
        acc.2 := by
  induction l with
  | nil => intro acc; rfl
  | cons r l ih =>
    intro acc
    simp only [List.foldl_cons]
    rw [ih]
    congr 1
    unfold bestStep
    by_cases hlt : acc.2 < compute_text_similarity q r.question_ar
    · rw [if_pos hlt]
      exact (max_eq_right (le_of_lt hlt)).symm
    · rw [if_neg hlt]
      exact (max_eq_left (le_of_not_lt hlt)).symm

theorem bestMatchFold_snd (q : Str) (pool : List Requirement) :
    (bestMatchFold q pool).2 = poolMax q pool :=
  bestMatchFold_snd_go q pool (none, 0)

theorem bestMatchFold_inv (q : Str) (l : List Requirement)
    (S : List Requirement) (hl : ∀ r ∈ l, r ∈ S) :
    ∀ acc : Option Requirement × ℚ,
      (acc.1 = none ∧ acc.2 = 0 ∨
        ∃ r ∈ S, acc.1 = some r ∧
          compute_text_similarity q r.question_ar = acc.2) →
      ((l.foldl (bestStep q) acc).1 = none ∧
          (l.foldl (bestStep q) acc).2 = 0 ∨
        ∃ r ∈ S, (l.foldl (bestStep q) acc).1 = some r ∧
          compute_text_similarity q r.question_ar =
            (l.foldl (bestStep q) acc).2) := by
  induction l with
  | nil => intro acc hacc; exact hacc
  | cons r l ih =>
    intro acc hacc
    simp only [List.foldl_cons]
    apply ih (fun x hx => hl x (List.mem_cons_of_mem r hx))
    unfold bestStep
    by_cases hlt : acc.2 < compute_text_similarity q r.question_ar
    · rw [if_pos hlt]
      exact Or.inr ⟨r, hl r (List.mem_cons_self r l), rfl, rfl⟩
    · rw [if_neg hlt]
      exact hacc

/-! ## Claim C2 — the 0.90 matching threshold -/

/-- Claim C2: for a non-empty pool the decision is `Matched` exactly when
the maximum question-text similarity reaches 0.9 — a pool whose best score
is exactly 0.9 is matched with that best candidate and its confidence,
while a best score strictly below 0.9 yields `Unmatched` with the whole
pool as fallback group. -/
theorem claim_C2 (q : Str) (pool : List Requirement) (_hne : pool ≠ []) :
    ((0.9 : ℚ) ≤ poolMax q pool →
      ∃ r ∈ pool, compute_text_similarity q r.question_ar = poolMax q pool ∧
        previousYearMatch q pool = .matched r (poolMax q pool)) ∧
    (poolMax q pool < (0.9 : ℚ) →
      previousYearMatch q pool = .unmatched pool) := by
  have hsnd : (bestMatchFold q pool).2 = poolMax q pool :=
    bestMatchFold_snd q pool
  constructor
  · intro hth
    have hpos : (0 : ℚ) < poolMax q pool :=
      lt_of_lt_of_le (by norm_num) hth
    rcases bestMatchFold_inv q pool pool (fun r hr => hr) (none, 0)
        (Or.inl ⟨rfl, rfl⟩) with ⟨_, h0⟩ | ⟨r, hmem, hsome, hsim⟩
    · have h0' : poolMax q pool = 0 := by rw [← hsnd]; exact h0
      exact absurd h0' (ne_of_gt hpos)
    · have hsim' : compute_text_similarity q r.question_ar =
          poolMax q pool := by rw [← hsnd]; exact hsim
      refine ⟨r, hmem, hsim', ?_⟩
      unfold previousYearMatch
      rw [if_pos (by rw [hsnd]; exact hth)]
      have hsome' : (bestMatchFold q pool).1 = some r := hsome
      rw [hsome', hsnd]
  · intro hlt
    unfold previousYearMatch
    rw [if_neg (not_le.mpr (by rw [hsnd]; exact hlt))]

/-- Witness for C2 at the exact-0.9 boundary: candidate "abcdefghix"
against question "abcdefghij" scores exactly 9/10 and is matched. -/
theorem claim_C2_witness :
    ∃ r ∈ [wCand],
      compute_text_similarity ("abcdefghij".toList) r.question_ar =
        poolMax ("abcdefghij".toList) [wCand] ∧
      previousYearMatch ("abcdefghij".toList) [wCand] =
        .matched r (poolMax ("abcdefghij".toList) [wCand]) :=
  (claim_C2 ("abcdefghij".toList) [wCand] (by decide)).1
    (by with_unfolding_all decide)

/-! ## Claim C3 — full-triple mapping priority -/

/-- Claim C3, counterexample: with rows at all three granularities, the
full-triple row `wMapFull` (adopting element_from = "x") does NOT always
win — because its `sub_domain_from` equals the current sub-domain, the
guard `previous_sub_domain_ar == requirement.sub_domain_ar` still holds and
the element-level row overrides the element to "y". -/
theorem claim_C3_counterexample :
    resolveTaxonomy [wMapFull, wMapElement, wMapMain] 1 2 wReq3 =
      (some ("s".toList), some ("y".toList), some ("mm".toList)) ∧
    wMapFull.element_from_ar = some ("x".toList) ∧
    ("y".toList : Str) ≠ "x".toList := by
  refine ⟨by decide, by decide, by decide⟩

/-- Claim C3, amended: the full-triple row wins — and the element-level and
main-area-level rows leave the resolved triple untouched — provided its
`sub_domain_from` differs from the current sub-domain and its
`main_area_from` is present, non-empty and differs from the current main
area (otherwise the value-equality guards re-enable the coarser rows). -/
theorem claim_C3_amended (mappings : List SectionMapping) (cid pid : Nat)
    (req : Requirement) (m : SectionMapping) (v : Str)
    (hsubne : req.sub_domain_ar ≠ [])
    (hfind : findFullTripleMapping mappings cid pid req.sub_domain_ar =
      some m)
    (hsub : m.sub_domain_from_ar ≠ some req.sub_domain_ar)
    (hmain : m.main_area_from_ar = some v) (hvne : v ≠ [])
    (hvmain : v ≠ req.main_area_ar) :
    resolveTaxonomy mappings cid pid req =
      (m.sub_domain_from_ar,
       if truthy m.element_from_ar then m.element_from_ar
       else some req.element_ar,
       m.main_area_from_ar) := by
  have h1 : resolveStep1 mappings cid pid req =
      (m.sub_domain_from_ar,
       if truthy m.element_from_ar then m.element_from_ar
       else some req.element_ar,
       m.main_area_from_ar) := by
    unfold resolveStep1
    rw [if_pos hsubne, hfind]
    show (m.sub_domain_from_ar,
      if truthy m.element_from_ar then m.element_from_ar
      else some req.element_ar,
      if truthy m.main_area_from_ar then m.main_area_from_ar
      else some req.main_area_ar) = _
    rw [hmain, if_pos (show truthy (some v) = true by simp [truthy, hvne])]
  have h2 : resolveStep2 mappings cid pid req =
      resolveStep1 mappings cid pid req := by
    unfold resolveStep2
    rw [if_neg]
    intro hcon
    have hc1 := hcon.1
    rw [h1] at hc1
    exact hsub hc1
  have h3 : resolveTaxonomy mappings cid pid req =
      resolveStep2 mappings cid pid req := by
    unfold resolveTaxonomy
    rw [if_neg]
    intro hcon
    have hc := hcon.1
    rw [h2, h1] at hc
    simp only at hc
    rw [hmain] at hc
    exact hvmain (Option.some.injEq _ _ ▸ hc)
  rw [h3, h2, h1]

/-- Witness for the amended C3: a genuinely relabelling full-triple row
alongside element- and main-area-level rows; resolution takes everything
from the full-triple row. -/
theorem claim_C3_amended_witness :
    resolveTaxonomy [wMapFull2, wMapElement, wMapMain] 1 2 wReq3 =
      (wMapFull2.sub_domain_from_ar,
       if truthy wMapFull2.element_from_ar then wMapFull2.element_from_ar
       else some wReq3.element_ar,
       wMapFull2.main_area_from_ar) :=
  claim_C3_amended [wMapFull2, wMapElement, wMapMain] 1 2 wReq3 wMapFull2
    ("n".toList) (by decide) (by decide) (by decide) (by decide) (by decide)
    (by decide)

/-! ## Claim C8 — the unmatched fallback group -/

/-- Claim C8, counterexample: the surfaced group recommendation is NOT
"taken from the first pool member that has one" — the code consults only
`pool[0]`.  Here the second member owns a recommendation, yet the code
surfaces none. -/
theorem claim_C8_counterexample :
    (buildUnmatchedGroup [wRec8] [] 4 [wPool1, wPool2]).recommendation =
      none ∧
    specGroupRec [wRec8] 4 [wPool1, wPool2] = some wRec8 ∧
    (buildUnmatchedGroup [wRec8] [] 4 [wPool1, wPool2]).recommendation ≠
      specGroupRec [wRec8] 4 [wPool1, wPool2] := by
  refine ⟨by decide, by decide, by decide⟩

/-- Claim C8, amended: for a non-empty pool the unmatched group contains one
entry per pool member in order, each carrying that member's own question,
answer, answer status and evidence rows; the surfaced recommendation is the
FIRST pool member's recommendation lookup (`none` when that member has
none). -/
theorem claim_C8_amended (recs : List Recommendation) (evs : List Evidence)
    (pid : Nat) (first : Requirement) (rest : List Requirement) :
    (buildUnmatchedGroup recs evs pid (first :: rest)).recommendation =
      firstRecFor recs pid first.id ∧
    List.Forall₂
      (fun (g : GroupRequirement) (r : Requirement) =>
        g.code = r.code ∧ g.question_ar = r.question_ar ∧
        g.answer_ar = r.answer_ar ∧ g.answer_status = r.answer_status ∧
        g.evidence = (evs.filter (fun e => e.requirement_id = r.id)).map
          (fun e => e.id))
      (buildUnmatchedGroup recs evs pid (first :: rest)).requirements
      (first :: rest) := by
  constructor
  · rfl
  · show List.Forall₂ _
      ((first :: rest).map (fun r =>
        ({ code := r.code, question_ar := r.question_ar,
           answer_ar := r.answer_ar, answer_status := r.answer_status,
           evidence := ((evs.filter (fun e => e.requirement_id = r.id)).map
             (fun e => e.id)) : GroupRequirement })))
      (first :: rest)
    generalize first :: rest = pool
    induction pool with
    | nil => exact List.Forall₂.nil
    | cons r pool ih =>
      exact List.Forall₂.cons ⟨rfl, rfl, rfl, rfl, rfl⟩ ih

/-! ## Claim C9 — previous-year code derivation -/

/-- Claim C9, counterexample: `re.sub` replaces EVERY 4-digit run, not only
the first.  For "2025-ETARI-2025" with extracted year 2025 the code yields
"2024-ETARI-2024", while replacing only the first occurrence would yield
"2024-ETARI-2025". -/
theorem claim_C9_counterexample :
    extract_year ("2025-ETARI-2025".toList) = some 2025 ∧
    find_previous_year_index ("2025-ETARI-2025".toList) 2025 =
      "2024-ETARI-2024".toList ∧
    reSubFirst ("2024".toList) ("2025-ETARI-2025".toList) =
      "2024-ETARI-2025".toList ∧
    find_previous_year_index ("2025-ETARI-2025".toList) 2025 ≠
      reSubFirst ("2024".toList) ("2025-ETARI-2025".toList) := by
  refine ⟨by decide, by decide, by decide, by decide⟩

theorem reSub4Digits_eq_self (repl : Str) :
    ∀ (n : Nat) (code : Str), code.length ≤ n → count4Runs code = 0 →
      reSub4Digits repl code = code := by
  intro n
  induction n with
  | zero =>
    intro code hlen _
    have : code = [] := List.length_eq_zero.mp (Nat.le_zero.mp hlen)
    subst this
    rfl
  | succ n ih =>
    intro code hlen h
    match code with
    | [] => rfl
    | [c] => rfl
    | [c, c2] => rfl
    | [c, c2, c3] => rfl
    | c :: c2 :: c3 :: c4 :: rest =>
      unfold count4Runs at h
      unfold reSub4Digits
      by_cases hd : c.isDigit = true ∧ c2.isDigit = true ∧
          c3.isDigit = true ∧ c4.isDigit = true
      · rw [if_pos hd] at h
        exact absurd h (by omega)
      · rw [if_neg hd] at h ⊢
        have hlen' : (c2 :: c3 :: c4 :: rest).length ≤ n := by
          simp only [List.length_cons] at hlen ⊢
          omega
        rw [ih (c2 :: c3 :: c4 :: rest) hlen' h]

theorem reSub_agrees_first (repl : Str) :
    ∀ (n : Nat) (code : Str), code.length ≤ n → count4Runs code ≤ 1 →
      reSub4Digits repl code = reSubFirst repl code := by
  intro n
  induction n with
  | zero =>
    intro code hlen _
    have : code = [] := List.length_eq_zero.mp (Nat.le_zero.mp hlen)
    subst this
    rfl
  | succ n ih =>
    intro code hlen h
    match code with
    | [] => rfl
    | [c] => rfl
    | [c, c2] => rfl
    | [c, c2, c3] => rfl
    | c :: c2 :: c3 :: c4 :: rest =>
      unfold count4Runs at h
      unfold reSub4Digits reSubFirst
      by_cases hd : c.isDigit = true ∧ c2.isDigit = true ∧
          c3.isDigit = true ∧ c4.isDigit = true
      · rw [if_pos hd] at h ⊢
        rw [if_pos hd]
        have hrest : count4Runs rest = 0 := by omega
        rw [reSub4Digits_eq_self repl rest.length rest le_rfl hrest]
      · rw [if_neg hd] at h ⊢
        rw [if_neg hd]
        have hlen' : (c2 :: c3 :: c4 :: rest).length ≤ n := by
          simp only [List.length_cons] at hlen ⊢
          omega
        rw [ih (c2 :: c3 :: c4 :: rest) hlen' h]

/-- Claim C9, amended: `previous_year_code` replaces EVERY leftmost
non-overlapping 4-digit run with `year-1`; it agrees with the
first-occurrence-only description exactly when the code contains at most
one such run — as in the spec's own example `ETARI-2025 → ETARI-2024`. -/
theorem claim_C9_amended (repl code : Str) (h : count4Runs code ≤ 1) :
    reSub4Digits repl code = reSubFirst repl code :=
  reSub_agrees_first repl code.length code le_rfl h

/-- Witness for the amended C9 at the spec's own single-run example. -/
theorem claim_C9_amended_witness :
    reSub4Digits ("2024".toList) ("ETARI-2025".toList) =
      reSubFirst ("2024".toList) ("ETARI-2025".toList) ∧
    find_previous_year_index ("ETARI-2025".toList) 2025 =
      "ETARI-2024".toList :=
  ⟨claim_C9_amended ("2024".toList) ("ETARI-2025".toList) (by decide),
   by decide⟩

/-! ## Claim C4 — upload-row matching and its combined score -/

/-- Claim C4, counterexample: the upload loop's combined score is the
unweighted mean `(main+element+sub)/3`, not the data-dependent weighting.
With per-field scores (1, 1, 0) and a blank element the loop computes 2/3,
while the claimed weighting `0.4*main + 0.6*sub` gives 2/5. -/
theorem claim_C4_counterexample :
    uploadCombinedScore wRow4 wReq4 = 2/3 ∧
    weightedCombinedScore wReq4 (rowScores wRow4 wReq4).1
      (rowScores wRow4 wReq4).2.1 (rowScores wRow4 wReq4).2.2 = 2/5 ∧
    uploadCombinedScore wRow4 wReq4 ≠
      weightedCombinedScore wReq4 (rowScores wRow4 wReq4).1
        (rowScores wRow4 wReq4).2.1 (rowScores wRow4 wReq4).2.2 := by
  refine ⟨?_, ?_, ?_⟩
  · with_unfolding_all decide
  · with_unfolding_all decide
  · with_unfolding_all decide

/-- Claim C4, amended: a requirement matches an uploaded row exactly when
all three per-field similarity scores reach the 0.70 floor; the combined
score computed alongside is the unweighted mean (used only for best-match
tracking, never for the match decision) — the data-dependent weighting
lives only in the helper `find_matching_requirement`, which the upload flow
does not call. -/
theorem claim_C4_amended (row : ExcelRow) (reqs : List Requirement)
    (req : Requirement) :
    (req ∈ matchingReqs row reqs ↔
      req ∈ reqs ∧
        (0.70 : ℚ) ≤ similarity_score row.main_area req.main_area_ar ∧
        (0.70 : ℚ) ≤ similarity_score row.element req.element_ar ∧
        (0.70 : ℚ) ≤ similarity_score row.sub_domain req.sub_domain_ar) ∧
    uploadCombinedScore row req =
      (similarity_score row.main_area req.main_area_ar +
        similarity_score row.element req.element_ar +
        similarity_score row.sub_domain req.sub_domain_ar) / 3 := by
  constructor
  · unfold matchingReqs rowMatchesReq rowScores
    rw [List.mem_filter]
    simp
  · rfl

/-! ## Lemmas: the upload batch as a fold over upsert events -/

theorem upload_eq_foldl_events (iid : Nat) (reqs : List Requirement)
    (rows : List ExcelRow) : ∀ st : RecState,
    upload iid reqs rows st =
      (uploadEvents reqs rows).foldl (stepEvent iid) st := by
  induction rows with
  | nil => intro st; rfl
  | cons row rows ih =>
    intro st
    show upload iid reqs rows (applyRow iid reqs st row) = _
    rw [ih]
    have hev : uploadEvents reqs (row :: rows) =
        (if row.recommendation = [] then []
         else (matchingReqs row reqs).map (fun req => (req.id, row))) ++
          uploadEvents reqs rows := rfl
    rw [hev, List.foldl_append]
    congr 1
    unfold applyRow
    by_cases hrec : row.recommendation = []
    · rw [if_pos hrec, if_pos hrec]
      rfl
    · rw [if_neg hrec, if_neg hrec, List.foldl_map]
      rfl

theorem stepEvent_skip (iid : Nat) (st : RecState) (e : Nat × ExcelRow)
    (he : e.1 ∈ st.processed) : stepEvent iid st e = st := by
  unfold stepEvent upsertRec
  rw [if_pos he]

theorem stepEvent_update (iid : Nat) (st : RecState) (e : Nat × ExcelRow)
    (he : e.1 ∉ st.processed) (hk : hasKey st.recs iid e.1 = true) :
    stepEvent iid st e =
      { recs := updateFirstRec iid e.1 e.2 st.recs,
        processed := e.1 :: st.processed, created := st.created,
        updated := st.updated + 1, log := st.log ++ [e] } := by
  cases hfr : firstRecFor st.recs iid e.1 with
  | none => rw [hasKey, hfr] at hk; simp at hk
  | some r =>
    unfold stepEvent upsertRec
    rw [if_neg he, hfr]

theorem stepEvent_insert (iid : Nat) (st : RecState) (e : Nat × ExcelRow)
    (he : e.1 ∉ st.processed) (hk : hasKey st.recs iid e.1 = false) :
    stepEvent iid st e =
      { recs := st.recs ++
          [{ requirement_id := e.1, index_id := iid,
             current_status_ar := e.2.current_status,
             recommendation_ar := e.2.recommendation,
             status := "pending".toList }],
        processed := e.1 :: st.processed, created := st.created + 1,
        updated := st.updated, log := st.log ++ [e] } := by
  cases hfr : firstRecFor st.recs iid e.1 with
  | some r => rw [hasKey, hfr] at hk; simp at hk
  | none =>
    unfold stepEvent upsertRec
    rw [if_neg he, hfr]

theorem pairKeys_updateFirstRec (iid rid : Nat) (row : ExcelRow) :
    ∀ recs : List Recommendation,
      pairKeys (updateFirstRec iid rid row recs) = pairKeys recs := by
  intro recs
  induction recs with
  | nil => rfl
  | cons r rs ih =>
    unfold updateFirstRec
    by_cases hr : (r.requirement_id = rid ∧ r.index_id = iid)
    · rw [if_pos hr]; rfl
    · rw [if_neg hr]
      show (r.requirement_id, r.index_id) :: pairKeys (updateFirstRec _ _ _ rs)
        = (r.requirement_id, r.index_id) :: pairKeys rs
      rw [ih]

theorem hasKey_updateFirstRec (iid rid : Nat) (row : ExcelRow)
    (iid' j : Nat) : ∀ recs : List Recommendation,
      hasKey (updateFirstRec iid rid row recs) iid' j =
        hasKey recs iid' j := by
  intro recs
  induction recs with
  | nil => rfl
  | cons r rs ih =>
    unfold updateFirstRec
    by_cases hr : (r.requirement_id = rid ∧ r.index_id = iid)
    · rw [if_pos hr]
      unfold hasKey firstRecFor
      by_cases hp : (r.requirement_id = j ∧ r.index_id = iid')
      · rw [List.find?_cons_of_pos _ (by simpa using hp),
          List.find?_cons_of_pos _ (by simpa using hp)]
        rfl
      · rw [List.find?_cons_of_neg _ (by simpa using hp),
          List.find?_cons_of_neg _ (by simpa using hp)]
    · rw [if_neg hr]
      unfold hasKey firstRecFor
      by_cases hp : (r.requirement_id = j ∧ r.index_id = iid')
      · rw [List.find?_cons_of_pos _ (by simpa using hp),
          List.find?_cons_of_pos _ (by simpa using hp)]
      · rw [List.find?_cons_of_neg _ (by simpa using hp),
          List.find?_cons_of_neg _ (by simpa using hp)]
        exact ih

theorem pairKeys_append (recs recs' : List Recommendation) :
    pairKeys (recs ++ recs') = pairKeys recs ++ pairKeys recs' :=
  List.map_append _ recs recs'

theorem hasKey_append_ne (recs : List Recommendation) (r : Recommendation)
    (iid j : Nat) (hne : r.requirement_id ≠ j) :
    hasKey (recs ++ [r]) iid j = hasKey recs iid j := by
  induction recs with
  | nil =>
    show hasKey [r] iid j = hasKey [] iid j
    unfold hasKey firstRecFor
    rw [List.find?_cons_of_neg _ (by simp [hne])]
  | cons r0 rs ih =>
    unfold hasKey firstRecFor
    rw [List.cons_append]
    by_cases hp : (r0.requirement_id = j ∧ r0.index_id = iid)
    · rw [List.find?_cons_of_pos _ (by simpa using hp),
        List.find?_cons_of_pos _ (by simpa using hp)]
    · rw [List.find?_cons_of_neg _ (by simpa using hp),
        List.find?_cons_of_neg _ (by simpa using hp)]
      exact ih

theorem hasKey_iff_mem_pairKeys (recs : List Recommendation)
    (iid rid : Nat) :
    hasKey recs iid rid = true ↔ (rid, iid) ∈ pairKeys recs := by
  induction recs with
  | nil => simp [hasKey, firstRecFor, pairKeys]
  | cons r rs ih =>
    unfold hasKey firstRecFor
    by_cases hp : (r.requirement_id = rid ∧ r.index_id = iid)
    · rw [List.find?_cons_of_pos _ (by simpa using hp)]
      simp [pairKeys, hp.1, hp.2]
    · rw [List.find?_cons_of_neg _ (by simpa using hp)]
      show hasKey rs iid rid = true ↔ _
      rw [ih]
      constructor
      · exact fun h => List.mem_cons_of_mem _ h
      · intro h
        rcases List.mem_cons.mp h with h | h
        · exact absurd ⟨(congrArg Prod.fst h).symm,
            (congrArg Prod.snd h).symm⟩ hp
        · exact h

theorem freshEvents_not_mem (es : List (Nat × ExcelRow)) :
    ∀ (P : List Nat) (e : Nat × ExcelRow), e ∈ freshEvents P es →
      e.1 ∉ P := by
  induction es with
  | nil => intro P e he; simp [freshEvents] at he
  | cons e' es ih =>
    intro P e he
    unfold freshEvents at he
    by_cases hm : e'.1 ∈ P
    · rw [if_pos hm] at he
      exact ih P e he
    · rw [if_neg hm] at he
      rcases List.mem_cons.mp he with he | he
      · subst he; exact hm
      · intro hmem
        exact ih (e'.1 :: P) e he (List.mem_cons_of_mem _ hmem)

theorem freshEvents_nodup (es : List (Nat × ExcelRow)) :
    ∀ P : List Nat, ((freshEvents P es).map Prod.fst).Nodup := by
  induction es with
  | nil => intro P; simp [freshEvents]
  | cons e' es ih =>
    intro P
    unfold freshEvents
    by_cases hm : e'.1 ∈ P
    · rw [if_pos hm]; exact ih P
    · rw [if_neg hm]
      rw [List.map_cons, List.nodup_cons]
      refine ⟨?_, ih (e'.1 :: P)⟩
      intro hcon
      rcases List.mem_map.mp hcon with ⟨x, hx, hxe⟩
      exact freshEvents_not_mem es (e'.1 :: P) x hx
        (hxe ▸ List.mem_cons_self _ _)

theorem freshEvents_first (es : List (Nat × ExcelRow)) :
    ∀ (P : List Nat) (e : Nat × ExcelRow), e ∈ freshEvents P es →
      firstEventFor e.1 es = some e := by
  induction es with
  | nil => intro P e he; simp [freshEvents] at he
  | cons e' es ih =>
    intro P e he
    unfold freshEvents at he
    by_cases hm : e'.1 ∈ P
    · rw [if_pos hm] at he
      have hne : e'.1 ≠ e.1 :=
        fun hcon => freshEvents_not_mem es P e he (hcon ▸ hm)
      unfold firstEventFor
      rw [List.find?_cons_of_neg _ (by simpa using hne)]
      exact ih P e he
    · rw [if_neg hm] at he
      rcases List.mem_cons.mp he with he | he
      · subst he
        unfold firstEventFor
        rw [List.find?_cons_of_pos _ (by simp)]
      · have hne : e'.1 ≠ e.1 := by
          intro hcon
          exact freshEvents_not_mem es (e'.1 :: P) e he
            (hcon ▸ List.mem_cons_self _ _)
        unfold firstEventFor
        rw [List.find?_cons_of_neg _ (by simpa using hne)]
        exact ih (e'.1 :: P) e he

theorem foldl_step_spec (iid : Nat) (events : List (Nat × ExcelRow)) :
    ∀ st : RecState,
      ((events.foldl (stepEvent iid) st).log =
        st.log ++ freshEvents st.processed events) ∧
      ((events.foldl (stepEvent iid) st).created = st.created +
        ((freshEvents st.processed events).filter
          (fun e => ! hasKey st.recs iid e.1)).length) ∧
      ((events.foldl (stepEvent iid) st).updated = st.updated +
        ((freshEvents st.processed events).filter
          (fun e => hasKey st.recs iid e.1)).length) ∧
      (pairKeys (events.foldl (stepEvent iid) st).recs =
        pairKeys st.recs ++
          ((freshEvents st.processed events).filter
            (fun e => ! hasKey st.recs iid e.1)).map
            (fun e => (e.1, iid))) := by
  induction events with
  | nil =>
    intro st
    exact ⟨by simp [freshEvents], by simp [freshEvents],
      by simp [freshEvents], by simp [freshEvents]⟩
  | cons e es ih =>
    intro st
    rw [List.foldl_cons]
    have hfdef : freshEvents st.processed (e :: es) =
        if e.1 ∈ st.processed then freshEvents st.processed es
        else e :: freshEvents (e.1 :: st.processed) es := rfl
    by_cases he : e.1 ∈ st.processed
    · rw [stepEvent_skip iid st e he]
      rw [hfdef, if_pos he]
      exact ih st
    · rw [hfdef, if_neg he]
      obtain ⟨ih1, ih2, ih3, ih4⟩ := ih (stepEvent iid st e)
      by_cases hk : hasKey st.recs iid e.1
      · have hfields := stepEvent_update iid st e he hk
        have hrecs : (stepEvent iid st e).recs =
            updateFirstRec iid e.1 e.2 st.recs := by rw [hfields]
        have hproc : (stepEvent iid st e).processed =
            e.1 :: st.processed := by rw [hfields]
        have hcre : (stepEvent iid st e).created = st.created := by
          rw [hfields]
        have hupd : (stepEvent iid st e).updated = st.updated + 1 := by
          rw [hfields]
        have hlog : (stepEvent iid st e).log = st.log ++ [e] := by
          rw [hfields]
        have hcong : ((freshEvents (e.1 :: st.processed) es).filter
              (fun x => ! hasKey (updateFirstRec iid e.1 e.2 st.recs)
                iid x.1)) =
            ((freshEvents (e.1 :: st.processed) es).filter
              (fun x => ! hasKey st.recs iid x.1)) :=
          List.filter_congr (fun x _ => by rw [hasKey_updateFirstRec])
        have hcong' : ((freshEvents (e.1 :: st.processed) es).filter
              (fun x => hasKey (updateFirstRec iid e.1 e.2 st.recs)
                iid x.1)) =
            ((freshEvents (e.1 :: st.processed) es).filter
              (fun x => hasKey st.recs iid x.1)) :=
          List.filter_congr (fun x _ => by rw [hasKey_updateFirstRec])
        refine ⟨?_, ?_, ?_, ?_⟩
        · rw [ih1, hlog, hproc]
          simp
        · rw [ih2, hcre, hproc, hrecs, hcong, List.filter_cons]
          simp [hk]
        · rw [ih3, hupd, hproc, hrecs, hcong', List.filter_cons]
          simp only [hk, if_pos, List.length_cons]
          omega
        · rw [ih4, hrecs, hproc, pairKeys_updateFirstRec, hcong,
            List.filter_cons]
          simp [hk]
      · have hkf : hasKey st.recs iid e.1 = false := by simpa using hk
        have hfields := stepEvent_insert iid st e he hkf
        have hrecs : (stepEvent iid st e).recs = st.recs ++
            [{ requirement_id := e.1, index_id := iid,
               current_status_ar := e.2.current_status,
               recommendation_ar := e.2.recommendation,
               status := "pending".toList }] := by rw [hfields]
        have hproc : (stepEvent iid st e).processed =
            e.1 :: st.processed := by rw [hfields]
        have hcre : (stepEvent iid st e).created = st.created + 1 := by
          rw [hfields]
        have hupd : (stepEvent iid st e).updated = st.updated := by
          rw [hfields]
        have hlog : (stepEvent iid st e).log = st.log ++ [e] := by
          rw [hfields]
        have hne : ∀ x ∈ freshEvents (e.1 :: st.processed) es,
            x.1 ≠ e.1 := by
          intro x hx hcon
          exact freshEvents_not_mem es (e.1 :: st.processed) x hx
            (hcon ▸ List.mem_cons_self _ _)
        have hcong : ∀ (p : Bool → Bool),
            ((freshEvents (e.1 :: st.processed) es).filter
              (fun x => p (hasKey (st.recs ++
                [{ requirement_id := e.1, index_id := iid,
                   current_status_ar := e.2.current_status,
                   recommendation_ar := e.2.recommendation,
                   status := "pending".toList }]) iid x.1))) =
            ((freshEvents (e.1 :: st.processed) es).filter
              (fun x => p (hasKey st.recs iid x.1))) := by
          intro p
          apply List.filter_congr
          intro x hx
          rw [hasKey_append_ne _ _ _ _ (fun hcon => hne x hx hcon.symm)]
        refine ⟨?_, ?_, ?_, ?_⟩
        · rw [ih1, hlog, hproc]
          simp
        · rw [ih2, hcre, hproc, hrecs, hcong (fun b => !b),
            List.filter_cons]
          simp only [hkf, Bool.not_false, if_pos, List.length_cons]
          omega
        · rw [ih3, hupd, hproc, hrecs, hcong (fun b => b),
            List.filter_cons]
          simp [hkf]
        · rw [ih4, hrecs, hproc, pairKeys_append,
            hcong (fun b => !b), List.filter_cons]
          simp only [hkf, Bool.not_false, if_pos]
          show (pairKeys st.recs ++ [(e.1, iid)]) ++ _ = _
          simp

/-! ## Lemmas: the stored text for a key -/

theorem contentFor_updateFirstRec_self (iid rid : Nat) (row : ExcelRow) :
    ∀ recs : List Recommendation, hasKey recs iid rid = true →
      contentFor (updateFirstRec iid rid row recs) iid rid =
        some (row.current_status, row.recommendation) := by
  intro recs
  induction recs with
  | nil => intro hk; simp [hasKey, firstRecFor] at hk
  | cons r rs ih =>
    intro hk
    unfold updateFirstRec
    by_cases hr : (r.requirement_id = rid ∧ r.index_id = iid)
    · rw [if_pos hr]
      unfold contentFor firstRecFor
      rw [List.find?_cons_of_pos _ (by simpa using hr)]
      rfl
    · rw [if_neg hr]
      unfold contentFor firstRecFor
      rw [List.find?_cons_of_neg _ (by simpa using hr)]
      have hk' : hasKey rs iid rid = true := by
        unfold hasKey firstRecFor at hk
        rw [List.find?_cons_of_neg _ (by simpa using hr)] at hk
        exact hk
      exact ih hk'

theorem contentFor_append_new (iid rid : Nat) (row : ExcelRow) :
    ∀ recs : List Recommendation, hasKey recs iid rid = false →
      contentFor (recs ++
        [{ requirement_id := rid, index_id := iid,
           current_status_ar := row.current_status,
           recommendation_ar := row.recommendation,
           status := "pending".toList }]) iid rid =
        some (row.current_status, row.recommendation) := by
  intro recs
  induction recs with
  | nil =>
    intro _
    unfold contentFor firstRecFor
    rw [List.nil_append, List.find?_cons_of_pos _ (by simp)]
    rfl
  | cons r rs ih =>
    intro hk
    have hr : ¬ (r.requirement_id = rid ∧ r.index_id = iid) := by
      intro hcon
      unfold hasKey firstRecFor at hk
      rw [List.find?_cons_of_pos _ (by simpa using hcon)] at hk
      simp at hk
    have hk' : hasKey rs iid rid = false := by
      unfold hasKey firstRecFor at hk ⊢
      rw [List.find?_cons_of_neg _ (by simpa using hr)] at hk
      exact hk
    unfold contentFor firstRecFor
    rw [List.cons_append, List.find?_cons_of_neg _ (by simpa using hr)]
    exact ih hk'

theorem contentFor_updateFirstRec_other (iid j : Nat) (row : ExcelRow)
    (rid : Nat) (hne : j ≠ rid) :
    ∀ recs : List Recommendation,
      contentFor (updateFirstRec iid j row recs) iid rid =
        contentFor recs iid rid := by
  intro recs
  induction recs with
  | nil => rfl
  | cons r rs ih =>
    unfold updateFirstRec
    by_cases hr : (r.requirement_id = j ∧ r.index_id = iid)
    · rw [if_pos hr]
      have hpr : ¬ (r.requirement_id = rid ∧ r.index_id = iid) :=
        fun hcon => hne (hr.1.symm.trans hcon.1)
      unfold contentFor firstRecFor
      rw [List.find?_cons_of_neg _ (by simpa using hpr),
        List.find?_cons_of_neg _ (by simpa using hpr)]
    · rw [if_neg hr]
      unfold contentFor firstRecFor
      by_cases hpr : (r.requirement_id = rid ∧ r.index_id = iid)
      · rw [List.find?_cons_of_pos _ (by simpa using hpr),
          List.find?_cons_of_pos _ (by simpa using hpr)]
      · rw [List.find?_cons_of_neg _ (by simpa using hpr),
          List.find?_cons_of_neg _ (by simpa using hpr)]
        exact ih

theorem contentFor_append_other (r : Recommendation) (iid rid : Nat)
    (hne : r.requirement_id ≠ rid) :
    ∀ recs : List Recommendation,
      contentFor (recs ++ [r]) iid rid = contentFor recs iid rid := by
  intro recs
  induction recs with
  | nil =>
    show contentFor [r] iid rid = contentFor [] iid rid
    unfold contentFor firstRecFor
    rw [List.find?_cons_of_neg _ (by simp [hne])]
  | cons r0 rs ih =>
    unfold contentFor firstRecFor
    rw [List.cons_append]
    by_cases hp : (r0.requirement_id = rid ∧ r0.index_id = iid)
    · rw [List.find?_cons_of_pos _ (by simpa using hp),
        List.find?_cons_of_pos _ (by simpa using hp)]
    · rw [List.find?_cons_of_neg _ (by simpa using hp),
        List.find?_cons_of_neg _ (by simpa using hp)]
      exact ih

theorem foldl_step_content_stable (iid : Nat)
    (es : List (Nat × ExcelRow)) :
    ∀ (st : RecState) (rid : Nat), rid ∈ st.processed →
      contentFor (es.foldl (stepEvent iid) st).recs iid rid =
        contentFor st.recs iid rid := by
  induction es with
  | nil => intro st rid _; rfl
  | cons e es ih =>
    intro st rid hrid
    rw [List.foldl_cons]
    by_cases he : e.1 ∈ st.processed
    · rw [stepEvent_skip iid st e he]
      exact ih st rid hrid
    · have hne : e.1 ≠ rid := fun hcon => he (hcon ▸ hrid)
      by_cases hk : hasKey st.recs iid e.1
      · have hfields := stepEvent_update iid st e he hk
        have h1 := ih (stepEvent iid st e) rid
          (by rw [hfields]; exact List.mem_cons_of_mem _ hrid)
        rw [h1, hfields]
        exact contentFor_updateFirstRec_other iid e.1 e.2 rid hne st.recs
      · have hkf : hasKey st.recs iid e.1 = false := by simpa using hk
        have hfields := stepEvent_insert iid st e he hkf
        have h1 := ih (stepEvent iid st e) rid
          (by rw [hfields]; exact List.mem_cons_of_mem _ hrid)
        rw [h1, hfields]
        exact contentFor_append_other _ iid rid hne st.recs

theorem foldl_step_content_first (iid : Nat)
    (es : List (Nat × ExcelRow)) :
    ∀ (st : RecState) (rid : Nat) (ev : Nat × ExcelRow),
      firstEventFor rid es = some ev → rid ∉ st.processed →
      contentFor (es.foldl (stepEvent iid) st).recs iid rid =
        some (ev.2.current_status, ev.2.recommendation) := by
  induction es with
  | nil => intro st rid ev h _; simp [firstEventFor] at h
  | cons e es ih =>
    intro st rid ev hfind hp
    rw [List.foldl_cons]
    by_cases hid : e.1 = rid
    · have hev : e = ev := by
        unfold firstEventFor at hfind
        rw [List.find?_cons_of_pos _ (by simpa using hid)] at hfind
        injection hfind
      subst hev
      have hp' : e.1 ∉ st.processed := by rw [hid]; exact hp
      by_cases hk : hasKey st.recs iid e.1
      · have hfields := stepEvent_update iid st e hp' hk
        have hstable := foldl_step_content_stable iid es
          (stepEvent iid st e) rid
          (by rw [hfields]; rw [← hid]; exact List.mem_cons_self _ _)
        rw [hstable, hfields, ← hid]
        exact contentFor_updateFirstRec_self iid e.1 e.2 st.recs hk
      · have hkf : hasKey st.recs iid e.1 = false := by simpa using hk
        have hfields := stepEvent_insert iid st e hp' hkf
        have hstable := foldl_step_content_stable iid es
          (stepEvent iid st e) rid
          (by rw [hfields]; rw [← hid]; exact List.mem_cons_self _ _)
        rw [hstable, hfields, ← hid]
        exact contentFor_append_new iid e.1 e.2 st.recs hkf
    · unfold firstEventFor at hfind
      rw [List.find?_cons_of_neg _ (by simpa using hid)] at hfind
      by_cases he : e.1 ∈ st.processed
      · rw [stepEvent_skip iid st e he]
        exact ih st rid ev hfind hp
      · by_cases hk : hasKey st.recs iid e.1
        · have hfields := stepEvent_update iid st e he hk
          apply ih (stepEvent iid st e) rid ev hfind
          rw [hfields]
          intro hcon
          rcases List.mem_cons.mp hcon with hcon | hcon
          · exact hid hcon.symm
          · exact hp hcon
        · have hkf : hasKey st.recs iid e.1 = false := by simpa using hk
          have hfields := stepEvent_insert iid st e he hkf
          apply ih (stepEvent iid st e) rid ev hfind
          rw [hfields]
          intro hcon
          rcases List.mem_cons.mp hcon with hcon | hcon
          · exact hid hcon.symm
          · exact hp hcon

theorem initState_recs (recs : List Recommendation) :
    (initState recs).recs = recs := rfl

theorem initState_processed (recs : List Recommendation) :
    (initState recs).processed = [] := rfl

theorem initState_created (recs : List Recommendation) :
    (initState recs).created = 0 := rfl

theorem initState_updated (recs : List Recommendation) :
    (initState recs).updated = 0 := rfl

theorem initState_log (recs : List Recommendation) :
    (initState recs).log = [] := rfl

/-! ## Claim C5 — upload idempotence and key uniqueness -/

/-- Claim C5: uploading a sheet twice from an empty recommendation table
gives `created = 0` on the second run and `updated` equal to the first
run's `created`; and from any state whose `(requirement_id, index_id)`
keys are duplicate-free, any sequence of upsert events preserves that
uniqueness — an existing pair is updated in place, never duplicated. -/
theorem claim_C5 (iid : Nat) (reqs : List Requirement)
    (rows : List ExcelRow) :
    (upload iid reqs rows (initState
      (upload iid reqs rows (initState [])).recs)).created = 0 ∧
    (upload iid reqs rows (initState
      (upload iid reqs rows (initState [])).recs)).updated =
      (upload iid reqs rows (initState [])).created ∧
    ∀ (events : List (Nat × ExcelRow)) (st0 : RecState),
      (pairKeys st0.recs).Nodup →
      (pairKeys (events.foldl (stepEvent iid) st0).recs).Nodup := by
  have hE := upload_eq_foldl_events iid reqs rows
  obtain ⟨h1log, h1c, h1u, h1k⟩ :=
    foldl_step_spec iid (uploadEvents reqs rows) (initState [])
  have hkeys1 : pairKeys (upload iid reqs rows (initState [])).recs =
      (freshEvents [] (uploadEvents reqs rows)).map
        (fun e => (e.1, iid)) := by
    rw [hE, h1k]
    simp only [initState_recs, initState_processed]
    show [] ++ _ = _
    rw [List.nil_append]
    congr 1
    exact List.filter_eq_self.mpr (fun a _ => rfl)
  have hcre1 : (upload iid reqs rows (initState [])).created =
      (freshEvents [] (uploadEvents reqs rows)).length := by
    rw [hE, h1c]
    simp only [initState_recs, initState_processed, initState_created]
    rw [Nat.zero_add]
    congr 1
    exact List.filter_eq_self.mpr (fun a _ => rfl)
  obtain ⟨h2log, h2c, h2u, h2k⟩ :=
    foldl_step_spec iid (uploadEvents reqs rows)
      (initState (upload iid reqs rows (initState [])).recs)
  have hmem : ∀ e ∈ freshEvents [] (uploadEvents reqs rows),
      hasKey (upload iid reqs rows (initState [])).recs iid e.1 = true := by
    intro e he
    rw [hasKey_iff_mem_pairKeys, hkeys1]
    exact List.mem_map.mpr ⟨e, he, rfl⟩
  refine ⟨?_, ?_, ?_⟩
  · rw [hE, h2c]
    simp only [initState_recs, initState_processed, initState_created]
    have hnil : (freshEvents [] (uploadEvents reqs rows)).filter
        (fun e => ! hasKey (upload iid reqs rows (initState [])).recs
          iid e.1) = [] :=
      List.filter_eq_nil_iff.mpr (fun a ha => by simp [hmem a ha])
    rw [hnil]
    rfl
  · rw [hE, h2u]
    simp only [initState_recs, initState_processed, initState_updated]
    have hall : (freshEvents [] (uploadEvents reqs rows)).filter
        (fun e => hasKey (upload iid reqs rows (initState [])).recs
          iid e.1) = freshEvents [] (uploadEvents reqs rows) :=
      List.filter_eq_self.mpr (fun a ha => hmem a ha)
    rw [hall, Nat.zero_add, hcre1]
  · intro events st0 hnd
    obtain ⟨_, _, _, hk⟩ := foldl_step_spec iid events st0
    rw [hk]
    apply List.Nodup.append hnd
    · have hmm : ((freshEvents st0.processed events).filter
          (fun e => ! hasKey st0.recs iid e.1)).map
          (fun e => (e.1, iid)) =
        (((freshEvents st0.processed events).filter
          (fun e => ! hasKey st0.recs iid e.1)).map Prod.fst).map
          (fun i => (i, iid)) := by
        rw [List.map_map]
        rfl
      rw [hmm]
      apply List.Nodup.map (fun a b h => congrArg Prod.fst h)
      apply List.Nodup.sublist
        (List.Sublist.map Prod.fst (List.filter_sublist _))
      exact freshEvents_nodup events st0.processed
    · intro x hx1 hx2
      rcases List.mem_map.mp hx2 with ⟨e, hef, hex⟩
      rcases List.mem_filter.mp hef with ⟨_, hpred⟩
      have hfalse : hasKey st0.recs iid e.1 = false := by
        simpa using hpred
      apply absurd ((hasKey_iff_mem_pairKeys st0.recs iid e.1).mpr
        (hex ▸ hx1))
      simp [hfalse]

/-- Witness for C5 at a one-row sheet matching one requirement: the second
run creates nothing and updates the one row created by the first run. -/
theorem claim_C5_witness :
    (upload 5 [wReqU] [wRowU] (initState
      (upload 5 [wReqU] [wRowU] (initState [])).recs)).created = 0 ∧
    (upload 5 [wReqU] [wRowU] (initState
      (upload 5 [wReqU] [wRowU] (initState [])).recs)).updated =
      (upload 5 [wReqU] [wRowU] (initState [])).created ∧
    (pairKeys ((uploadEvents [wReqU] [wRowU]).foldl (stepEvent 5)
      (initState [])).recs).Nodup :=
  ⟨(claim_C5 5 [wReqU] [wRowU]).1, (claim_C5 5 [wReqU] [wRowU]).2.1,
   (claim_C5 5 [wReqU] [wRowU]).2.2 (uploadEvents [wReqU] [wRowU])
     (initState []) (by decide)⟩

/-! ## Claim C10 — batch-global deduplication, earliest row wins -/

/-- Claim C10: within one upload batch each requirement id receives at most
one write (the write log has duplicate-free ids), every write corresponds
to the FIRST event of the batch targeting that requirement, and the stored
status/recommendation text for a written requirement comes from that
earliest matching row — later rows matching the same requirement are
skipped. -/
theorem claim_C10 (iid : Nat) (reqs : List Requirement)
    (rows : List ExcelRow) (init : List Recommendation) :
    ((upload iid reqs rows (initState init)).log.map Prod.fst).Nodup ∧
    (∀ e ∈ (upload iid reqs rows (initState init)).log,
      firstEventFor e.1 (uploadEvents reqs rows) = some e) ∧
    (∀ (rid : Nat) (ev : Nat × ExcelRow),
      firstEventFor rid (uploadEvents reqs rows) = some ev →
      contentFor (upload iid reqs rows (initState init)).recs iid rid =
        some (ev.2.current_status, ev.2.recommendation)) := by
  have hE := upload_eq_foldl_events iid reqs rows (initState init)
  obtain ⟨hlog, _, _, _⟩ :=
    foldl_step_spec iid (uploadEvents reqs rows) (initState init)
  have hlog' : (upload iid reqs rows (initState init)).log =
      freshEvents [] (uploadEvents reqs rows) := by
    rw [hE, hlog]
    show [] ++ _ = _
    rw [List.nil_append]
    rfl
  refine ⟨?_, ?_, ?_⟩
  · rw [hlog']
    exact freshEvents_nodup (uploadEvents reqs rows) []
  · intro e he
    rw [hlog'] at he
    exact freshEvents_first (uploadEvents reqs rows) [] e he
  · intro rid ev hfind
    rw [hE]
    exact foldl_step_content_first iid (uploadEvents reqs rows)
      (initState init) rid ev hfind (by simp [initState])

/-- Witness for C10: the one-row batch writes requirement 11 once, with
that row's status and recommendation text. -/
theorem claim_C10_witness :
    firstEventFor 11 (uploadEvents [wReqU] [wRowU]) = some (11, wRowU) ∧
    contentFor (upload 5 [wReqU] [wRowU] (initState [])).recs 5 11 =
      some (wRowU.current_status, wRowU.recommendation) :=
  ⟨by with_unfolding_all decide,
   (claim_C10 5 [wReqU] [wRowU] []).2.2 11 (11, wRowU)
     (by with_unfolding_all decide)⟩

end IndexTracker
